import Mathlib

/-!
Verification of the symbol-table construction and name-resolution core of
`verible` (`verilog/analysis/symbol_table.cc`).

The scope tree is modelled flatly: a `SymbolTable` is the list of its scope
nodes in pre-order, each node identified by its full path from the root
(the root itself has path `[]`).  A reference-component tree
(`ReferenceComponentNode`) is likewise modelled flatly in pre-order: a list
of pairs of the node's path (the child-index sequence from the tree root)
and its `ReferenceComponent`.  Pointers of the C++ code become addresses:
a `ScopePath` stands for a `SymbolTableNode*` and a `RefAddr` (scope path,
index into the scope's reference list, node path within the tree) stands
for a `ReferenceComponentNode*`.  In-place mutation of `resolved_symbol`
becomes a functional update of the table at an address, and the resolver
passes become folds over the pre-order list of all addresses.  A fatal
`CHECK` of the C++ code (which aborts the process) is modelled by the
functions returning `Option`, `none` meaning abort.
-/

namespace Verilog

/-- Metatype of a symbol (C++ `SymbolType`). -/
inductive SymbolType where
  | kRoot
  | kClass
  | kModule
  | kPackage
  | kParameter
  | kTypeAlias
  | kDataNetVariableInstance
  | kFunction
  | kTask
  | kInterface
  | kGenerate
  | kUnspecified
  | kCallable
deriving DecidableEq, Repr

/-- Lookup discipline tag of one reference component (C++ `ReferenceType`). -/
inductive ReferenceType where
  | kUnqualified
  | kImmediate
  | kDirectMember
  | kMemberOfTypeOfParent
deriving DecidableEq, Repr

/-- Full path of a scope node from the root; stands for a `SymbolTableNode*`. -/
abbrev ScopePath := List String

/-- Path of a node inside a reference-component tree: the sequence of child
indices from the tree's root.  The root is `[]`. -/
abbrev NodePath := List Nat

/-- Address of a `ReferenceComponentNode`: which scope's reference list it
lives in, the index of its `DependentReferences` in that list, and its
position inside that reference tree. -/
structure RefAddr where
  scope : ScopePath
  refIndex : Nat
  node : NodePath
deriving DecidableEq, Repr

/-- One atom in a reference path (C++ `ReferenceComponent`). -/
structure ReferenceComponent where
  identifier : String
  ref_type : ReferenceType
  metatype : SymbolType
  resolved_symbol : Option ScopePath
deriving DecidableEq, Repr

/-- A reference-component tree (C++ `ReferenceComponentNode` tree owned by a
`DependentReferences`), flattened in pre-order: each node keyed by its
`NodePath`.  The empty list is an empty `DependentReferences`
(`components == nullptr`). -/
abbrev RefTree := List (NodePath × ReferenceComponent)

/-- Diagnostics collected by build and resolve (C++ `absl::Status` values);
modelled as a tagged taxonomy with the payloads the messages carry. -/
inductive Diagnostic where
  | unresolvedUnqualified (name : String) (context : ScopePath)
  | noSuchMember (name : String) (context : ScopePath)
  | metatypeMismatch (name : String) (expected found : SymbolType)
  | typeHasNoMembers (parentName : String)
  | alreadyExists (name : String) (context : ScopePath)
  | redefinedOutOfLine (name : String) (original redefined : SymbolType)
  | includeFileError (msg : String)
deriving DecidableEq, Repr

/-- One scope node of the symbol table: its full path, the `SymbolInfo`
fields relevant to resolution (`type`, `declared_type.user_defined_type`)
and its `local_references_to_bind`. -/
structure ScopeEntry where
  path : ScopePath
  type : SymbolType
  user_defined_type : Option RefAddr
  refs : List RefTree
deriving DecidableEq, Repr

/-- The scope tree, flattened in pre-order (root first). -/
abbrev SymbolTable := List ScopeEntry

/-- Find the scope node with the given full path (resolves a scope-node
address). -/
def findScope : SymbolTable → ScopePath → Option ScopeEntry
  | [], _ => none
  | e :: rest, p => if e.path = p then some e else findScope rest p

/-- `SymbolTableNode::Find(key)` on the scope `context`: exact-match lookup
among the children of `context` only.  Returns the found child's path and
its metatype. -/
def findMember (tbl : SymbolTable) (context : ScopePath) (key : String) :
    Option (ScopePath × SymbolType) :=
  match findScope tbl (context ++ [key]) with
  | some e => some (context ++ [key], e.type)
  | none => none

/-- The loop of C++ `LookupSymbolUpwards` over the parent chain.  The parent
of the scope with path `ctx` has path `ctx.dropLast`, so walking the parent
chain consumes the reversed path one segment at a time; at the root
(reversed path empty) a failed lookup stops, since the root's parent is
null. -/
def lookupUpRev (tbl : SymbolTable) (key : String) :
    List String → Option (ScopePath × SymbolType)
  | [] => findMember tbl [] key
  | x :: rest =>
    match findMember tbl ((x :: rest).reverse) key with
    | some r => some r
    | none => lookupUpRev tbl key rest

/-- C++ `LookupSymbolUpwards`: search up-scope, stopping at the first symbol
found in the nearest scope; the root's parent is null. -/
def lookupSymbolUpwards (tbl : SymbolTable) (context : ScopePath)
    (key : String) : Option (ScopePath × SymbolType) :=
  lookupUpRev tbl key context.reverse

/-- Find the reference tree at a given index of a reference list. -/
def refsAt : List RefTree → Nat → Option RefTree
  | [], _ => none
  | t :: _, 0 => some t
  | _ :: ts, Nat.succ i => refsAt ts i

/-- Find the component of the tree node with the given node path. -/
def treeFind : RefTree → NodePath → Option ReferenceComponent
  | [], _ => none
  | pc :: rest, p => if pc.1 = p then some pc.2 else treeFind rest p

/-- Dereference a `ReferenceComponentNode*`: the component at address `a`. -/
def getComp (tbl : SymbolTable) (a : RefAddr) : Option ReferenceComponent :=
  match findScope tbl a.scope with
  | none => none
  | some e =>
    match refsAt e.refs a.refIndex with
    | none => none
    | some t => treeFind t a.node

/-- Install `resolved_symbol` on a component (the single mutation the
resolver performs). -/
def setResolvedComp (c : ReferenceComponent) (s : ScopePath) : ReferenceComponent :=
  { c with resolved_symbol := some s }

/-- Update the tree node with node path `q`, installing resolution `s`. -/
def updateTreeAt : RefTree → NodePath → ScopePath → RefTree
  | [], _, _ => []
  | pc :: rest, q, s =>
    if pc.1 = q then (pc.1, setResolvedComp pc.2 s) :: rest
    else pc :: updateTreeAt rest q s

/-- Update the tree at index `i` of a reference list. -/
def updateRefsAt : List RefTree → Nat → NodePath → ScopePath → List RefTree
  | [], _, _, _ => []
  | t :: ts, 0, q, s => updateTreeAt t q s :: ts
  | t :: ts, Nat.succ i, q, s => t :: updateRefsAt ts i q s

/-- Write `resolved_symbol := s` through the address `a` (the functional
form of `component.resolved_symbol = &found`). -/
def updateTableAt : SymbolTable → RefAddr → ScopePath → SymbolTable
  | [], _, _ => []
  | e :: rest, a, s =>
    if e.path = a.scope then
      { e with refs := updateRefsAt e.refs a.refIndex a.node s } :: rest
    else e :: updateTableAt rest a s

/-- C++ `ReferenceComponent::MatchesMetatype`: `kUnspecified` accepts
anything, the `kCallable` wildcard accepts functions and tasks, every
other expected metatype must be equal to the found one. -/
def matchesMetatype (expected found : SymbolType) : Bool :=
  match expected with
  | SymbolType.kUnspecified => true
  | SymbolType.kCallable =>
    found == SymbolType.kFunction || found == SymbolType.kTask
  | _ => expected == found

/-- C++ `ResolveUnqualifiedName`: upward search from `context`, first match
wins without regard to metatype; then the metatype gate decides between
binding and a mismatch diagnostic. -/
def resolveUnqualifiedName (tbl : SymbolTable) (a : RefAddr)
    (c : ReferenceComponent) (context : ScopePath) (ds : List Diagnostic) :
    SymbolTable × List Diagnostic :=
  match lookupSymbolUpwards tbl context c.identifier with
  | none => (tbl, ds ++ [Diagnostic.unresolvedUnqualified c.identifier context])
  | some (p, ty) =>
    if matchesMetatype c.metatype ty then (updateTableAt tbl a p, ds)
    else (tbl, ds ++ [Diagnostic.metatypeMismatch c.identifier c.metatype ty])

/-- C++ `ResolveDirectMember`: local-only lookup among children of
`context`; not found is a member diagnostic, found goes through the
metatype gate. -/
def resolveDirectMember (tbl : SymbolTable) (a : RefAddr)
    (c : ReferenceComponent) (context : ScopePath) (ds : List Diagnostic) :
    SymbolTable × List Diagnostic :=
  match findMember tbl context c.identifier with
  | none => (tbl, ds ++ [Diagnostic.noSuchMember c.identifier context])
  | some (p, ty) =>
    if matchesMetatype c.metatype ty then (updateTableAt tbl a p, ds)
    else (tbl, ds ++ [Diagnostic.metatypeMismatch c.identifier c.metatype ty])

/-- Address of a node's parent in its reference tree. -/
def parentAddr (a : RefAddr) : RefAddr := { a with node := a.node.dropLast }

/-- C++ `ResolveReferenceComponentNode` on the component at address `a`,
anchored at scope `anchor`.  `none` is a fatal `CHECK` failure or a null
dereference (process abort).  Already-resolved components are skipped. -/
def resolveReferenceComponentNode (anchor : ScopePath) (a : RefAddr)
    (tbl : SymbolTable) (ds : List Diagnostic) :
    Option (SymbolTable × List Diagnostic) :=
  match getComp tbl a with
  | none => some (tbl, ds)
  | some c =>
    if c.resolved_symbol.isSome then some (tbl, ds)
    else
      match c.ref_type with
      | ReferenceType.kUnqualified =>
        -- CHECK(node.Parent() == nullptr)
        if a.node = [] then some (resolveUnqualifiedName tbl a c anchor ds)
        else none
      | ReferenceType.kImmediate =>
        some (resolveDirectMember tbl a c anchor ds)
      | ReferenceType.kDirectMember =>
        if a.node = [] then none  -- node.Parent() dereferenced: root has none
        else
          match getComp tbl (parentAddr a) with
          | none => none
          | some pc =>
            match pc.resolved_symbol with
            | none => some (tbl, ds)  -- leave this subtree unresolved
            | some ps => some (resolveDirectMember tbl a c ps ds)
      | ReferenceType.kMemberOfTypeOfParent =>
        if a.node = [] then none  -- node.Parent() dereferenced: root has none
        else
          match getComp tbl (parentAddr a) with
          | none => none
          | some pc =>
            match pc.resolved_symbol with
            | none => some (tbl, ds)  -- leave this subtree unresolved
            | some ps =>
              match findScope tbl ps with
              | none => none  -- dangling resolved pointer: dereference aborts
              | some pe =>
                match pe.user_defined_type with
                | none =>
                  -- primitive types do not have members
                  some (tbl, ds ++ [Diagnostic.typeHasNoMembers pc.identifier])
                | some u =>
                  match getComp tbl u with
                  | none => none  -- dangling type pointer: dereference aborts
                  | some uc =>
                    match uc.resolved_symbol with
                    | none => some (tbl, ds)  -- type itself not (yet) resolved
                    | some ts => some (resolveDirectMember tbl a c ts ds)

/-- Addresses of all nodes of one reference tree, in its stored pre-order. -/
def treeAddrs (p : ScopePath) (i : Nat) (t : RefTree) : List RefAddr :=
  t.map fun pc => RefAddr.mk p i pc.1

/-- Addresses of all nodes of a reference list, trees in order, starting at
index `i`. -/
def refsAddrs (p : ScopePath) : Nat → List RefTree → List RefAddr
  | _, [] => []
  | i, t :: ts => treeAddrs p i t ++ refsAddrs p (i + 1) ts

/-- All component addresses of the table in resolution order: scopes in
table (pre-)order, each scope's reference list in order, each tree in
pre-order (its stored order).  The anchoring scope of an address is its
`scope` field. -/
def tableAddrs : SymbolTable → List RefAddr
  | [] => []
  | e :: rest => refsAddrs e.path 0 e.refs ++ tableAddrs rest

/-- C++ `SymbolTable::Resolve`: resolve every reference tree of every scope,
pre-order, collecting diagnostics.  `none` means a `CHECK` aborted. -/
def resolvePass (tbl : SymbolTable) : Option (SymbolTable × List Diagnostic) :=
  (tableAddrs tbl).foldlM
    (fun st a => resolveReferenceComponentNode a.scope a st.1 st.2) (tbl, [])

/-- Two consecutive full `Resolve` passes over the same table, diagnostics
accumulated across both runs (the caller keeps one diagnostics vector). -/
def resolveTwice (tbl : SymbolTable) : Option (SymbolTable × List Diagnostic) :=
  match resolvePass tbl with
  | none => none
  | some (tbl1, ds1) =>
    match resolvePass tbl1 with
    | none => none
    | some (tbl2, ds2) => some (tbl2, ds1 ++ ds2)

/-- C++ `ResolveReferenceComponentNodeLocal` applied to the root of one
reference tree (`DependentReferences::ResolveLocally`): skip when already
resolved, `CHECK_EQ(ref_type, kUnqualified)` otherwise, then local-only
lookup in the anchoring scope with no metatype check and no diagnostics. -/
def resolveReferenceComponentNodeLocal (a : RefAddr) (tbl : SymbolTable) :
    Option SymbolTable :=
  match getComp tbl a with
  | none => some tbl  -- empty DependentReferences: nothing to resolve
  | some c =>
    if c.resolved_symbol.isSome then some tbl  -- already bound
    else if c.ref_type ≠ ReferenceType.kUnqualified then none  -- CHECK_EQ
    else
      match findMember tbl a.scope c.identifier with
      | some (p, _) => some (updateTableAt tbl a p)
      | none => some tbl

/-- Root addresses of a reference list, starting at index `i`. -/
def rootRefsAddrs (p : ScopePath) : Nat → List RefTree → List RefAddr
  | _, [] => []
  | i, _ :: ts => RefAddr.mk p i [] :: rootRefsAddrs p (i + 1) ts

/-- Addresses of every reference tree's root, in table order (the local-only
pass touches only roots). -/
def rootAddrs : SymbolTable → List RefAddr
  | [] => []
  | e :: rest => rootRefsAddrs e.path 0 e.refs ++ rootAddrs rest

/-- C++ `SymbolTable::ResolveLocallyOnly`. -/
def resolveLocallyOnly (tbl : SymbolTable) : Option SymbolTable :=
  (rootAddrs tbl).foldlM (fun t a => resolveReferenceComponentNodeLocal a t) tbl

/-- The local-only pass followed by the full pass. -/
def localThenFull (tbl : SymbolTable) : Option (SymbolTable × List Diagnostic) :=
  match resolveLocallyOnly tbl with
  | none => none
  | some tblL => resolvePass tblL

/-! ### Builder operations -/

/-- C++ `Builder::EmplaceElementInCurrentScope`: `TryEmplace` the name among
the children of the current scope.  If the name already exists, the
resident symbol is kept, a `DiagnoseSymbolAlreadyExists` diagnostic is
recorded, and the pre-existing child's path is returned; otherwise a new
child is created. -/
def emplaceElementInCurrentScope (tbl : SymbolTable) (cur : ScopePath)
    (name : String) (ty : SymbolType) (ds : List Diagnostic) :
    SymbolTable × List Diagnostic × ScopePath :=
  match findScope tbl (cur ++ [name]) with
  | some _ => (tbl, ds ++ [Diagnostic.alreadyExists name cur], cur ++ [name])
  | none =>
    (tbl ++ [ScopeEntry.mk (cur ++ [name]) ty none []], ds, cur ++ [name])

/-- Iteration of `while (!node.is_leaf) node = node.Children().front()`:
starting from depth `k` of the all-first-children spine, step while the
next spine node exists.  Fuel bounds the walk by the tree size. -/
def leafSpineGo (keys : List NodePath) : Nat → Nat → Nat
  | 0, k => k
  | Nat.succ fuel, k =>
    if List.replicate (k + 1) 0 ∈ keys then leafSpineGo keys fuel (k + 1)
    else k

/-- Node path of `DependentReferences::LastLeaf`: follow first children from
the root down to a leaf (all-zero path). -/
def lastLeafPath (t : RefTree) : NodePath :=
  List.replicate (leafSpineGo (t.map Prod.fst) t.length 0) 0

/-- C++ `DependentReferences::PushReferenceComponent`: an empty tree gets
the component as its root, otherwise the deepest-leftmost leaf grows its
first child. -/
def pushReferenceComponent (t : RefTree) (c : ReferenceComponent) : RefTree :=
  if t.isEmpty then [(([] : NodePath), c)]
  else t ++ [(lastLeafPath t ++ [0], c)]

/-- Number of children of the root of a reference tree (`NodePath`s of
length 1). -/
def rootChildCount (t : RefTree) : Nat :=
  (t.filter fun pc => pc.1.length = 1).length

/-- C++ `Builder::LookupOrInjectOutOfLineDefinition` given the captured
reference tree of the qualified id.  Outer result `none` is a fatal
`CHECK` failure; `Except.error` is the returned bad status; `Except.ok`
carries the updated table, the diagnostics pushed (the non-fatal
no-such-member injection diagnostic), and the inner symbol's path. -/
def lookupOrInjectOutOfLineDefinition (tbl : SymbolTable) (cur : ScopePath)
    (capture : RefTree) (ty : SymbolType) :
    Option (Except Diagnostic (SymbolTable × List Diagnostic × ScopePath)) :=
  -- CHECK_EQ(ref.components->Children().size(), 1)
  if rootChildCount capture ≠ 1 then none
  else
    match treeFind capture [] with
    | none => none  -- ABSL_DIE_IF_NULL(ref.components)
    | some base =>
      -- DependentReferences::ResolveOnlyBaseLocally.
      -- CHECK(base.ref_type is kUnqualified or kImmediate)
      if ¬(base.ref_type = ReferenceType.kUnqualified ∨
           base.ref_type = ReferenceType.kImmediate) then none
      else
        match findMember tbl cur base.identifier with
        | none =>
          some (Except.error (Diagnostic.noSuchMember base.identifier cur))
        | some (outerPath, outerTy) =>
          if matchesMetatype base.metatype outerTy = false then
            some (Except.error
              (Diagnostic.metatypeMismatch base.identifier base.metatype outerTy))
          else
            -- inner_ref = ref.components->Children().front()
            match treeFind capture [0] with
            | none => none
            | some innerRef =>
              match findMember tbl outerPath innerRef.identifier with
              | none =>
                -- injection succeeded: no forward declaration; non-fatal
                some (Except.ok
                  (tbl ++ [ScopeEntry.mk (outerPath ++ [innerRef.identifier]) ty
                             none []],
                   [Diagnostic.noSuchMember innerRef.identifier outerPath],
                   outerPath ++ [innerRef.identifier]))
              | some (innerPath, origTy) =>
                if origTy ≠ ty then
                  some (Except.error
                    (Diagnostic.redefinedOutOfLine innerRef.identifier origTy ty))
                else some (Except.ok (tbl, [], innerPath))

/-- C++ `Builder::DescendThroughOutOfLineDefinition`: on success the current
scope is switched to the inner symbol (returned as `some path`) and the
definition is traversed; on failure the status is pushed as a diagnostic
and the whole definition subtree is skipped (`none` scope). -/
def descendThroughOutOfLineDefinition (tbl : SymbolTable) (cur : ScopePath)
    (capture : RefTree) (ty : SymbolType) :
    Option (SymbolTable × List Diagnostic × Option ScopePath) :=
  match lookupOrInjectOutOfLineDefinition tbl cur capture ty with
  | none => none
  | some (Except.ok (tbl2, ds, inner)) => some (tbl2, ds, some inner)
  | some (Except.error e) => some (tbl, [e], none)

/-! ### Include expansion and `BuildSymbolTable` entry point -/

/-- Strip one leading and one trailing double quote if present
(`StripOuterQuotes`, via `absl::StripPrefix` then `absl::StripSuffix`). -/
def stripOuterQuotes (text : String) : String :=
  let s1 := if text.startsWith "\"" then text.drop 1 else text
  if s1.endsWith "\"" then s1.dropRight 1 else s1

/-- The text structure of a parsed file; `τ` is the syntax-tree type of the
external parser. -/
structure TextStructure (τ : Type) where
  syntax_tree : Option τ

/-- External collaborator `VerilogSourceFile`: its parse status (`none` is
ok) and its text structure (may be absent when never parsed). -/
structure VerilogSourceFile (τ : Type) where
  parse_status : Option Diagnostic
  text_structure : Option (TextStructure τ)

/-- External collaborator `VerilogProject`: opening an included file either
fails with a status or returns a (possibly null) source-file handle. -/
structure VerilogProject (τ : Type) where
  openIncludedFile : String → Except Diagnostic (Option (VerilogSourceFile τ))

/-- C++ `Builder::EnterIncludeFile`: returns the diagnostics pushed and,
when traversal of the included file proceeds, the included file handle
(`none` means the expander returned without traversing anything). -/
def enterIncludeFile {τ : Type} (project : Option (VerilogProject τ))
    (included_filename : Option String) :
    List Diagnostic × Option (VerilogSourceFile τ) :=
  match included_filename with
  | none => ([], none)
  | some filename_text =>
    let filename_unquoted := stripOuterQuotes filename_text
    match project with
    | none => ([], none)  -- Without project, ignore.
    | some proj =>
      match proj.openIncludedFile filename_unquoted with
      | Except.error st => ([st], none)
      | Except.ok none => ([], none)  -- null file handle
      | Except.ok (some included_file) =>
        match included_file.parse_status with
        | some parse_status => ([parse_status], none)
        | none => ([], some included_file)  -- traverse included file's tree

/-- C++ free function `BuildSymbolTable`: bail out with no diagnostics and
an untouched table when the source has no text structure or no syntax
tree; otherwise run the builder walk (`walk` abstracts the whole
`Builder` traversal of the concrete syntax tree). -/
def buildSymbolTable {τ : Type}
    (walk : τ → SymbolTable → SymbolTable × List Diagnostic)
    (source : VerilogSourceFile τ) (tbl : SymbolTable) :
    SymbolTable × List Diagnostic :=
  match source.text_structure with
  | none => (tbl, [])
  | some ts =>
    match ts.syntax_tree with
    | none => (tbl, [])
    | some tree => walk tree tbl

/-! ### Concrete tables used as test vectors -/

/-- A table with a single unresolvable unqualified reference `x` anchored at
the root (no symbol `x` exists anywhere). -/
def exUnresolvable : SymbolTable :=
  [ScopeEntry.mk [] SymbolType.kRoot none
    [[(([] : NodePath),
       ReferenceComponent.mk "x" ReferenceType.kUnqualified
         SymbolType.kUnspecified none)]]]

/-- A table where the root anchors a reference `x` whose expected metatype is
the callable wildcard, while the symbol `x` in the root scope is a
parameter: a metatype mismatch for the full resolver, which the local-only
resolver binds anyway (it performs no metatype check). -/
def exMismatch : SymbolTable :=
  [ScopeEntry.mk [] SymbolType.kRoot none
    [[(([] : NodePath),
       ReferenceComponent.mk "x" ReferenceType.kUnqualified
         SymbolType.kCallable none)]],
   ScopeEntry.mk ["x"] SymbolType.kParameter none []]

/-- The table `exMismatch` after the local-only pass: the root reference is
bound to the parameter `x` despite the callable constraint. -/
def exMismatchLocal : SymbolTable :=
  [ScopeEntry.mk [] SymbolType.kRoot none
    [[(([] : NodePath),
       ReferenceComponent.mk "x" ReferenceType.kUnqualified
         SymbolType.kCallable (some ["x"]))]],
   ScopeEntry.mk ["x"] SymbolType.kParameter none []]

/-- A table where a reference `f` expects the callable wildcard and the
symbol `f` in scope is a function (the metatypes differ literally, but
`MatchesMetatype` accepts the pair). -/
def exCallable : SymbolTable :=
  [ScopeEntry.mk [] SymbolType.kRoot none
    [[(([] : NodePath),
       ReferenceComponent.mk "f" ReferenceType.kUnqualified
         SymbolType.kCallable none)]],
   ScopeEntry.mk ["f"] SymbolType.kFunction none []]

/-- `exCallable` with the reference bound to `$root::f`. -/
def exCallableBound : SymbolTable :=
  [ScopeEntry.mk [] SymbolType.kRoot none
    [[(([] : NodePath),
       ReferenceComponent.mk "f" ReferenceType.kUnqualified
         SymbolType.kCallable (some ["f"]))]],
   ScopeEntry.mk ["f"] SymbolType.kFunction none []]

/-- End-to-end member-of-type scenario (`class C; int f; endclass` with a
variable `c` of type `C` and a use `c.f`): the root scope holds the type
reference `C` (reference list index 0) and the chain `c` / `.f` (index 1);
symbol `c`'s declared type points at the type reference's last leaf. -/
def exTypeMember : SymbolTable :=
  [ScopeEntry.mk [] SymbolType.kRoot none
    [[(([] : NodePath),
       ReferenceComponent.mk "C" ReferenceType.kUnqualified
         SymbolType.kUnspecified none)],
     [(([] : NodePath),
       ReferenceComponent.mk "c" ReferenceType.kUnqualified
         SymbolType.kUnspecified none),
      ([0],
       ReferenceComponent.mk "f" ReferenceType.kMemberOfTypeOfParent
         SymbolType.kUnspecified none)]],
   ScopeEntry.mk ["C"] SymbolType.kClass none [],
   ScopeEntry.mk ["C", "f"] SymbolType.kDataNetVariableInstance none [],
   ScopeEntry.mk ["c"] SymbolType.kDataNetVariableInstance
     (some (RefAddr.mk [] 0 [])) []]

/-- The captured reference tree of a three-component qualified id
`A::B::C` directly under a function header, built exactly the way the
builder builds it (`PushReferenceComponent` three times). -/
def chainThree : RefTree :=
  pushReferenceComponent
    (pushReferenceComponent
      (pushReferenceComponent []
        (ReferenceComponent.mk "A" ReferenceType.kImmediate
          SymbolType.kClass none))
      (ReferenceComponent.mk "B" ReferenceType.kDirectMember
        SymbolType.kFunction none))
    (ReferenceComponent.mk "C" ReferenceType.kDirectMember
      SymbolType.kFunction none)

/-- A table with classes `A` and member function `A::B` for resolving
`chainThree` against. -/
def exChainScopes : SymbolTable :=
  [ScopeEntry.mk [] SymbolType.kRoot none [],
   ScopeEntry.mk ["A"] SymbolType.kClass none [],
   ScopeEntry.mk ["A", "B"] SymbolType.kFunction none []]

/-- A table with an empty class `C` (no member `g`): out-of-line definition
of `C::g` must inject `g`. -/
def exInject : SymbolTable :=
  [ScopeEntry.mk [] SymbolType.kRoot none [],
   ScopeEntry.mk ["C"] SymbolType.kClass none []]

/-- A table where `C::g` exists as a task: an out-of-line function
definition of `C::g` is a redefinition conflict. -/
def exConflict : SymbolTable :=
  [ScopeEntry.mk [] SymbolType.kRoot none [],
   ScopeEntry.mk ["C"] SymbolType.kClass none [],
   ScopeEntry.mk ["C", "g"] SymbolType.kTask none []]

/-- Captured reference tree of the out-of-line qualified id `C::g`. -/
def captureCg : RefTree :=
  pushReferenceComponent
    (pushReferenceComponent []
      (ReferenceComponent.mk "C" ReferenceType.kImmediate
        SymbolType.kClass none))
    (ReferenceComponent.mk "g" ReferenceType.kDirectMember
      SymbolType.kFunction none)

/-- The static data of a scope node: everything except the mutable
`resolved_symbol` fields of its reference components. -/
def staticScope (e : ScopeEntry) :
    ScopePath × SymbolType × Option RefAddr × List (List NodePath) :=
  (e.path, e.type, e.user_defined_type, e.refs.map fun t => t.map Prod.fst)

/-- The static data of the whole table; the resolver passes never change
it. -/
def staticPart (tbl : SymbolTable) :
    List (ScopePath × SymbolType × Option RefAddr × List (List NodePath)) :=
  tbl.map staticScope

/-- The value a root component (node path `[]`) holds after its own step of
the full resolve pass, as a function of the table state at that moment:
already-resolved roots are kept, unqualified roots go through the upward
search and the metatype gate, immediate roots through the local search and
the gate.  (Unresolved roots of the member kinds make the pass abort, so
their value here is irrelevant.) -/
def rootStepValue (tbl : SymbolTable) (a : RefAddr) : Option ReferenceComponent :=
  match getComp tbl a with
  | none => none
  | some c =>
    if c.resolved_symbol.isSome then some c
    else
      match c.ref_type with
      | ReferenceType.kUnqualified =>
        match lookupSymbolUpwards tbl a.scope c.identifier with
        | none => some c
        | some (p, ty) =>
          if matchesMetatype c.metatype ty then some (setResolvedComp c p)
          else some c
      | ReferenceType.kImmediate =>
        match findMember tbl a.scope c.identifier with
        | none => some c
        | some (p, ty) =>
          if matchesMetatype c.metatype ty then some (setResolvedComp c p)
          else some c
      | _ => none

/-- The value a root component holds after its step of the local-only pass:
already-resolved roots are kept, unqualified roots are bound to a local
match with no metatype check; anything else aborts the `CHECK_EQ`. -/
def localRootStepValue (tbl : SymbolTable) (a : RefAddr) :
    Option ReferenceComponent :=
  match getComp tbl a with
  | none => none
  | some c =>
    if c.resolved_symbol.isSome then some c
    else if c.ref_type ≠ ReferenceType.kUnqualified then none
    else
      match findMember tbl a.scope c.identifier with
      | some (p, _) => some (setResolvedComp c p)
      | none => some c

/-- Well-formedness of the reference roots: every not-yet-resolved root
component is an unqualified reference (true of every table the builder
produces; pre-resolved roots such as instance self-references and
out-of-line bases are exempt because both passes skip them). -/
def unresolvedRootsUnqualified (tbl : SymbolTable) : Bool :=
  (rootAddrs tbl).all fun a =>
    match getComp tbl a with
    | some c =>
      c.resolved_symbol.isSome || (c.ref_type == ReferenceType.kUnqualified)
    | none => true

/-- Every unresolved root component that has a local match in its anchoring
scope also satisfies its metatype constraint there. -/
def localMatchesRespectMetatype (tbl : SymbolTable) : Bool :=
  (rootAddrs tbl).all fun a =>
    match getComp tbl a with
    | some c =>
      c.resolved_symbol.isSome ||
        match findMember tbl a.scope c.identifier with
        | some pt => matchesMetatype c.metatype pt.2
        | none => true
    | none => true

/-! ## Lemmas: reading components through an update -/

theorem treeFind_updateTreeAt_ne (q p : NodePath) (s : ScopePath) (h : p ≠ q) :
    ∀ t : RefTree, treeFind (updateTreeAt t q s) p = treeFind t p := by
  intro t
  induction t with
  | nil => rfl
  | cons pc rest ih =>
    by_cases hq : pc.1 = q
    · simp [updateTreeAt, hq, treeFind, Ne.symm h]
    · by_cases hp : pc.1 = p
      · simp [updateTreeAt, hq, treeFind, hp, h]
      · simp [updateTreeAt, hq, treeFind, hp, ih]

theorem treeFind_updateTreeAt_eq (q : NodePath) (s : ScopePath) :
    ∀ t : RefTree,
      treeFind (updateTreeAt t q s) q =
        (treeFind t q).map fun c => setResolvedComp c s := by
  intro t
  induction t with
  | nil => rfl
  | cons pc rest ih =>
    by_cases hq : pc.1 = q
    · simp [updateTreeAt, hq, treeFind]
    · simp [updateTreeAt, hq, treeFind, ih]

theorem refsAt_updateRefsAt_eq (q : NodePath) (s : ScopePath) :
    ∀ (ts : List RefTree) (i : Nat),
      refsAt (updateRefsAt ts i q s) i =
        (refsAt ts i).map fun t => updateTreeAt t q s := by
  intro ts
  induction ts with
  | nil => intro i; rfl
  | cons t rest ih =>
    intro i
    cases i with
    | zero => rfl
    | succ j => simpa [updateRefsAt, refsAt] using ih j

theorem refsAt_updateRefsAt_ne (q : NodePath) (s : ScopePath) :
    ∀ (ts : List RefTree) (i j : Nat), j ≠ i →
      refsAt (updateRefsAt ts i q s) j = refsAt ts j := by
  intro ts
  induction ts with
  | nil => intro i j _; rfl
  | cons t rest ih =>
    intro i j h
    cases i with
    | zero =>
      cases j with
      | zero => exact absurd rfl h
      | succ j2 => rfl
    | succ i2 =>
      cases j with
      | zero => rfl
      | succ j2 =>
        simpa [updateRefsAt, refsAt] using ih i2 j2 fun hh => h (by rw [hh])

theorem findScope_updateTableAt (a : RefAddr) (s : ScopePath) :
    ∀ (tbl : SymbolTable) (p : ScopePath),
      findScope (updateTableAt tbl a s) p =
        if p = a.scope then
          (findScope tbl p).map fun e =>
            { e with refs := updateRefsAt e.refs a.refIndex a.node s }
        else findScope tbl p := by
  intro tbl
  induction tbl with
  | nil => intro p; simp only [updateTableAt, findScope]; split <;> rfl
  | cons e rest ih =>
    intro p
    by_cases he : e.path = a.scope
    · by_cases hp : e.path = p
      · have hpa : p = a.scope := by rw [← hp, he]
        simp [updateTableAt, he, findScope, hp, hpa]
      · have hpa : ¬p = a.scope := fun hh => hp (by rw [he, hh])
        simp [updateTableAt, he, findScope, hp, hpa, Ne.symm hpa]
    · by_cases hp : e.path = p
      · have hpa : ¬p = a.scope := fun hh => he (by rw [hp, hh])
        simp [updateTableAt, he, findScope, hp, hpa]
      · simp [updateTableAt, he, findScope, hp, ih]

theorem getComp_updateTableAt_eq (tbl : SymbolTable) (a : RefAddr)
    (s : ScopePath) :
    getComp (updateTableAt tbl a s) a =
      (getComp tbl a).map fun c => setResolvedComp c s := by
  unfold getComp
  rw [findScope_updateTableAt]
  rw [if_pos rfl]
  cases hfs : findScope tbl a.scope with
  | none => rfl
  | some e =>
    simp only [Option.map_some']
    rw [refsAt_updateRefsAt_eq]
    cases ht : refsAt e.refs a.refIndex with
    | none => rfl
    | some t => simp [treeFind_updateTreeAt_eq]

theorem getComp_updateTableAt_ne (tbl : SymbolTable) (a b : RefAddr)
    (s : ScopePath) (h : b ≠ a) :
    getComp (updateTableAt tbl a s) b = getComp tbl b := by
  unfold getComp
  rw [findScope_updateTableAt]
  by_cases hs : b.scope = a.scope
  · rw [if_pos hs]
    cases hfs : findScope tbl b.scope with
    | none => rfl
    | some e =>
      simp only [Option.map_some']
      by_cases hi : b.refIndex = a.refIndex
      · rw [← hi, refsAt_updateRefsAt_eq]
        cases ht : refsAt e.refs b.refIndex with
        | none => rfl
        | some t =>
          have hn : b.node ≠ a.node := by
            intro hn
            exact h (by cases a; cases b; simp_all)
          simp [treeFind_updateTreeAt_ne _ _ _ hn]
      · rw [refsAt_updateRefsAt_ne _ _ _ _ _ hi]
  · rw [if_neg hs]

/-! ## Lemmas: the static part of the table is resolver-invariant -/

theorem map_fst_updateTreeAt (q : NodePath) (s : ScopePath) :
    ∀ t : RefTree, (updateTreeAt t q s).map Prod.fst = t.map Prod.fst := by
  intro t
  induction t with
  | nil => rfl
  | cons pc rest ih =>
    by_cases hq : pc.1 = q
    · simp [updateTreeAt, hq]
    · simp [updateTreeAt, hq, ih]

theorem map_keys_updateRefsAt (q : NodePath) (s : ScopePath) :
    ∀ (ts : List RefTree) (i : Nat),
      (updateRefsAt ts i q s).map (fun t => t.map Prod.fst) =
        ts.map fun t => t.map Prod.fst := by
  intro ts
  induction ts with
  | nil => intro i; rfl
  | cons t rest ih =>
    intro i
    cases i with
    | zero => simp [updateRefsAt, map_fst_updateTreeAt]
    | succ j => simp [updateRefsAt, ih j]

theorem staticPart_updateTableAt (a : RefAddr) (s : ScopePath) :
    ∀ tbl : SymbolTable, staticPart (updateTableAt tbl a s) = staticPart tbl := by
  intro tbl
  induction tbl with
  | nil => rfl
  | cons e rest ih =>
    by_cases he : e.path = a.scope
    · simp [updateTableAt, he, staticPart, staticScope, map_keys_updateRefsAt]
    · simpa [updateTableAt, he, staticPart, staticScope] using ih

theorem findScope_congr (p : ScopePath) :
    ∀ t1 t2 : SymbolTable, staticPart t1 = staticPart t2 →
      (findScope t1 p).map staticScope = (findScope t2 p).map staticScope := by
  intro t1
  induction t1 with
  | nil =>
    intro t2 h
    have : t2 = [] := by
      cases t2 with
      | nil => rfl
      | cons e r => simp [staticPart] at h
    rw [this]
  | cons e1 r1 ih =>
    intro t2 h
    cases t2 with
    | nil => simp [staticPart] at h
    | cons e2 r2 =>
      simp only [staticPart, List.map_cons, List.cons.injEq] at h
      obtain ⟨h1, h2⟩ := h
      have hpath : e1.path = e2.path := congrArg (fun x => x.1) h1
      by_cases hp : e1.path = p
      · have hp2 : e2.path = p := by rw [← hpath, hp]
        simp [findScope, hp, hp2, h1]
      · have hp2 : ¬e2.path = p := fun hh => hp (by rw [hpath, hh])
        simpa [findScope, hp, hp2] using ih r2 h2

theorem findMember_congr (ctx : ScopePath) (k : String)
    (t1 t2 : SymbolTable) (h : staticPart t1 = staticPart t2) :
    findMember t1 ctx k = findMember t2 ctx k := by
  have hc := findScope_congr (ctx ++ [k]) t1 t2 h
  unfold findMember
  cases h1 : findScope t1 (ctx ++ [k]) with
  | none =>
    cases h2 : findScope t2 (ctx ++ [k]) with
    | none => rfl
    | some e2 => rw [h1, h2] at hc; simp at hc
  | some e1 =>
    cases h2 : findScope t2 (ctx ++ [k]) with
    | none => rw [h1, h2] at hc; simp at hc
    | some e2 =>
      rw [h1, h2] at hc
      simp only [Option.map_some', Option.some.injEq] at hc
      have : e1.type = e2.type := congrArg (fun x => x.2.1) hc
      simp [this]

theorem lookupUpRev_congr (k : String) :
    ∀ (r : List String) (t1 t2 : SymbolTable),
      staticPart t1 = staticPart t2 →
      lookupUpRev t1 k r = lookupUpRev t2 k r := by
  intro r
  induction r with
  | nil =>
    intro t1 t2 h
    unfold lookupUpRev
    exact findMember_congr _ _ _ _ h
  | cons x rest ih =>
    intro t1 t2 h
    unfold lookupUpRev
    rw [findMember_congr _ _ _ _ h]
    cases findMember t2 ((x :: rest).reverse) k with
    | some r2 => rfl
    | none => simpa using ih t1 t2 h

theorem lookupSymbolUpwards_congr (k : String) (ctx : ScopePath)
    (t1 t2 : SymbolTable) (h : staticPart t1 = staticPart t2) :
    lookupSymbolUpwards t1 ctx k = lookupSymbolUpwards t2 ctx k :=
  lookupUpRev_congr k ctx.reverse t1 t2 h

/-- The upward search checks the anchoring scope itself first: a local match
is the first match. -/
theorem lookupSymbolUpwards_local_first {tbl : SymbolTable} {ctx : ScopePath}
    {k : String} {r : ScopePath × SymbolType}
    (h : findMember tbl ctx k = some r) :
    lookupSymbolUpwards tbl ctx k = some r := by
  unfold lookupSymbolUpwards
  cases hr : ctx.reverse with
  | nil =>
    have hctx : ctx = [] := by
      have := congrArg List.reverse hr
      simpa using this
    subst hctx
    unfold lookupUpRev
    exact h
  | cons x rest =>
    unfold lookupUpRev
    have hrev : (x :: rest).reverse = ctx := by
      rw [← hr]
      exact List.reverse_reverse ctx
    rw [hrev, h]

theorem scopeType_congr (p : ScopePath) (t1 t2 : SymbolTable)
    (h : staticPart t1 = staticPart t2) :
    (findScope t1 p).map (fun e => e.type) =
      (findScope t2 p).map fun e => e.type := by
  have hc := findScope_congr p t1 t2 h
  cases h1 : findScope t1 p with
  | none =>
    cases h2 : findScope t2 p with
    | none => rfl
    | some e2 => rw [h1, h2] at hc; simp at hc
  | some e1 =>
    cases h2 : findScope t2 p with
    | none => rw [h1, h2] at hc; simp at hc
    | some e2 =>
      rw [h1, h2] at hc
      simp only [Option.map_some', Option.some.injEq] at hc
      simp only [Option.map_some', Option.some.injEq]
      exact congrArg (fun x => x.2.1) hc

theorem scopeUdt_congr (p : ScopePath) (t1 t2 : SymbolTable)
    (h : staticPart t1 = staticPart t2) :
    (findScope t1 p).map (fun e => e.user_defined_type) =
      (findScope t2 p).map fun e => e.user_defined_type := by
  have hc := findScope_congr p t1 t2 h
  cases h1 : findScope t1 p with
  | none =>
    cases h2 : findScope t2 p with
    | none => rfl
    | some e2 => rw [h1, h2] at hc; simp at hc
  | some e1 =>
    cases h2 : findScope t2 p with
    | none => rw [h1, h2] at hc; simp at hc
    | some e2 =>
      rw [h1, h2] at hc
      simp only [Option.map_some', Option.some.injEq] at hc
      simp only [Option.map_some', Option.some.injEq]
      exact congrArg (fun x => x.2.2.1) hc

theorem refsAddrs_eq_of_keys (p : ScopePath) :
    ∀ (ts1 ts2 : List RefTree) (i : Nat),
      ts1.map (fun t => t.map Prod.fst) = ts2.map (fun t => t.map Prod.fst) →
      refsAddrs p i ts1 = refsAddrs p i ts2 := by
  intro ts1
  induction ts1 with
  | nil =>
    intro ts2 i h
    cases ts2 with
    | nil => rfl
    | cons t r => simp at h
  | cons t1 r1 ih =>
    intro ts2 i h
    cases ts2 with
    | nil => simp at h
    | cons t2 r2 =>
      simp only [List.map_cons, List.cons.injEq] at h
      obtain ⟨h1, h2⟩ := h
      have htree : treeAddrs p i t1 = treeAddrs p i t2 := by
        unfold treeAddrs
        have e1 : t1.map (fun pc => RefAddr.mk p i pc.1) =
            (t1.map Prod.fst).map fun q => RefAddr.mk p i q := by
          rw [List.map_map]; rfl
        have e2 : t2.map (fun pc => RefAddr.mk p i pc.1) =
            (t2.map Prod.fst).map fun q => RefAddr.mk p i q := by
          rw [List.map_map]; rfl
        rw [e1, e2, h1]
      simp only [refsAddrs, htree, ih r2 (i + 1) h2]

theorem tableAddrs_congr :
    ∀ t1 t2 : SymbolTable, staticPart t1 = staticPart t2 →
      tableAddrs t1 = tableAddrs t2 := by
  intro t1
  induction t1 with
  | nil =>
    intro t2 h
    cases t2 with
    | nil => rfl
    | cons e r => simp [staticPart] at h
  | cons e1 r1 ih =>
    intro t2 h
    cases t2 with
    | nil => simp [staticPart] at h
    | cons e2 r2 =>
      simp only [staticPart, List.map_cons, List.cons.injEq] at h
      obtain ⟨h1, h2⟩ := h
      have hpath : e1.path = e2.path := congrArg (fun x => x.1) h1
      have hkeys : e1.refs.map (fun t => t.map Prod.fst) =
          e2.refs.map (fun t => t.map Prod.fst) :=
        congrArg (fun x => x.2.2.2) h1
      simp only [tableAddrs, ih r2 h2]
      rw [hpath, refsAddrs_eq_of_keys _ _ _ _ hkeys]

theorem rootRefsAddrs_eq_of_length (p : ScopePath) :
    ∀ (ts1 ts2 : List RefTree) (i : Nat), ts1.length = ts2.length →
      rootRefsAddrs p i ts1 = rootRefsAddrs p i ts2 := by
  intro ts1
  induction ts1 with
  | nil =>
    intro ts2 i h
    cases ts2 with
    | nil => rfl
    | cons t r => simp at h
  | cons t1 r1 ih =>
    intro ts2 i h
    cases ts2 with
    | nil => simp at h
    | cons t2 r2 =>
      simp only [List.length_cons, Nat.succ.injEq] at h
      simp only [rootRefsAddrs, ih r2 (i + 1) h]

theorem rootAddrs_congr :
    ∀ t1 t2 : SymbolTable, staticPart t1 = staticPart t2 →
      rootAddrs t1 = rootAddrs t2 := by
  intro t1
  induction t1 with
  | nil =>
    intro t2 h
    cases t2 with
    | nil => rfl
    | cons e r => simp [staticPart] at h
  | cons e1 r1 ih =>
    intro t2 h
    cases t2 with
    | nil => simp [staticPart] at h
    | cons e2 r2 =>
      simp only [staticPart, List.map_cons, List.cons.injEq] at h
      obtain ⟨h1, h2⟩ := h
      have hpath : e1.path = e2.path := congrArg (fun x => x.1) h1
      have hkeys : e1.refs.map (fun t => t.map Prod.fst) =
          e2.refs.map (fun t => t.map Prod.fst) :=
        congrArg (fun x => x.2.2.2) h1
      have hlen : e1.refs.length = e2.refs.length := by
        have := congrArg List.length hkeys
        simpa using this
      simp only [rootAddrs, ih r2 h2]
      rw [hpath, rootRefsAddrs_eq_of_length _ _ _ _ hlen]

/-! ## Lemmas: one resolver step writes only at its own address -/

theorem resolveUnqualifiedName_fst (tbl : SymbolTable) (a : RefAddr)
    (c : ReferenceComponent) (ctx : ScopePath) (ds : List Diagnostic) :
    (resolveUnqualifiedName tbl a c ctx ds).1 = tbl ∨
      ∃ p, (resolveUnqualifiedName tbl a c ctx ds).1 = updateTableAt tbl a p := by
  unfold resolveUnqualifiedName
  cases lookupSymbolUpwards tbl ctx c.identifier with
  | none => left; rfl
  | some pt =>
    obtain ⟨p, ty⟩ := pt
    cases h : matchesMetatype c.metatype ty with
    | false => simp [h]
    | true => right; exact ⟨p, by simp [h]⟩

theorem resolveDirectMember_fst (tbl : SymbolTable) (a : RefAddr)
    (c : ReferenceComponent) (ctx : ScopePath) (ds : List Diagnostic) :
    (resolveDirectMember tbl a c ctx ds).1 = tbl ∨
      ∃ p, (resolveDirectMember tbl a c ctx ds).1 = updateTableAt tbl a p := by
  unfold resolveDirectMember
  cases findMember tbl ctx c.identifier with
  | none => left; rfl
  | some pt =>
    obtain ⟨p, ty⟩ := pt
    cases h : matchesMetatype c.metatype ty with
    | false => simp [h]
    | true => right; exact ⟨p, by simp [h]⟩

theorem resolveReferenceComponentNode_fst {anchor : ScopePath} {a : RefAddr}
    {tbl : SymbolTable} {ds : List Diagnostic}
    {st2 : SymbolTable × List Diagnostic}
    (h : resolveReferenceComponentNode anchor a tbl ds = some st2) :
    st2.1 = tbl ∨ ∃ p, st2.1 = updateTableAt tbl a p := by
  unfold resolveReferenceComponentNode at h
  repeat' split at h
  all_goals
    first
    | exact Option.noConfusion h
    | (cases Option.some.inj h
       first
       | exact Or.inl rfl
       | exact resolveUnqualifiedName_fst tbl a _ _ ds
       | exact resolveDirectMember_fst tbl a _ _ ds)

theorem getComp_step_ne {anchor : ScopePath} {a : RefAddr}
    {tbl : SymbolTable} {ds : List Diagnostic}
    {st2 : SymbolTable × List Diagnostic}
    (h : resolveReferenceComponentNode anchor a tbl ds = some st2)
    (b : RefAddr) (hb : b ≠ a) : getComp st2.1 b = getComp tbl b := by
  rcases resolveReferenceComponentNode_fst h with h1 | ⟨p, h1⟩
  · rw [h1]
  · rw [h1, getComp_updateTableAt_ne _ _ _ _ hb]

theorem staticPart_step {anchor : ScopePath} {a : RefAddr}
    {tbl : SymbolTable} {ds : List Diagnostic}
    {st2 : SymbolTable × List Diagnostic}
    (h : resolveReferenceComponentNode anchor a tbl ds = some st2) :
    staticPart st2.1 = staticPart tbl := by
  rcases resolveReferenceComponentNode_fst h with h1 | ⟨p, h1⟩
  · rw [h1]
  · rw [h1, staticPart_updateTableAt]

theorem resolveReferenceComponentNode_skip {anchor : ScopePath} {a : RefAddr}
    {tbl : SymbolTable} {ds : List Diagnostic} {c : ReferenceComponent}
    (hc : getComp tbl a = some c) (hr : c.resolved_symbol.isSome = true) :
    resolveReferenceComponentNode anchor a tbl ds = some (tbl, ds) := by
  unfold resolveReferenceComponentNode
  rw [hc]
  simp [hr]

theorem resolveReferenceComponentNode_missing {anchor : ScopePath}
    {a : RefAddr} {tbl : SymbolTable} {ds : List Diagnostic}
    (hc : getComp tbl a = none) :
    resolveReferenceComponentNode anchor a tbl ds = some (tbl, ds) := by
  unfold resolveReferenceComponentNode
  rw [hc]

theorem resolveReferenceComponentNodeLocal_fst {a : RefAddr}
    {tbl tbl2 : SymbolTable}
    (h : resolveReferenceComponentNodeLocal a tbl = some tbl2) :
    tbl2 = tbl ∨ ∃ p, tbl2 = updateTableAt tbl a p := by
  unfold resolveReferenceComponentNodeLocal at h
  repeat' split at h
  all_goals
    first
    | exact Option.noConfusion h
    | (cases Option.some.inj h
       first
       | exact Or.inl rfl
       | exact Or.inr ⟨_, rfl⟩)

theorem getComp_localStep_ne {a : RefAddr} {tbl tbl2 : SymbolTable}
    (h : resolveReferenceComponentNodeLocal a tbl = some tbl2)
    (b : RefAddr) (hb : b ≠ a) : getComp tbl2 b = getComp tbl b := by
  rcases resolveReferenceComponentNodeLocal_fst h with h1 | ⟨p, h1⟩
  · rw [h1]
  · rw [h1, getComp_updateTableAt_ne _ _ _ _ hb]

theorem staticPart_localStep {a : RefAddr} {tbl tbl2 : SymbolTable}
    (h : resolveReferenceComponentNodeLocal a tbl = some tbl2) :
    staticPart tbl2 = staticPart tbl := by
  rcases resolveReferenceComponentNodeLocal_fst h with h1 | ⟨p, h1⟩
  · rw [h1]
  · rw [h1, staticPart_updateTableAt]

theorem resolveReferenceComponentNodeLocal_missing {a : RefAddr}
    {tbl : SymbolTable} (hc : getComp tbl a = none) :
    resolveReferenceComponentNodeLocal a tbl = some tbl := by
  unfold resolveReferenceComponentNodeLocal
  rw [hc]

/-! ## Generic lemmas about `Option`-monad folds -/

theorem foldlM_option_nil {σ α : Type} (step : σ → α → Option σ) (st : σ) :
    List.foldlM step st ([] : List α) = some st := rfl

theorem foldlM_option_cons {σ α : Type} (step : σ → α → Option σ)
    (x : α) (xs : List α) (st : σ) :
    List.foldlM step st (x :: xs) =
      (step st x).bind fun s => List.foldlM step s xs := by
  rw [List.foldlM_cons]
  rfl

theorem foldlM_option_inv {σ α : Type} (step : σ → α → Option σ)
    (P : σ → Prop) :
    ∀ (l : List α) (st st2 : σ),
      (∀ st3 x st4, x ∈ l → P st3 → step st3 x = some st4 → P st4) →
      P st → List.foldlM step st l = some st2 → P st2 := by
  intro l
  induction l with
  | nil =>
    intro st st2 _ hP h
    rw [foldlM_option_nil] at h
    cases Option.some.inj h
    exact hP
  | cons x xs ih =>
    intro st st2 hstep hP h
    rw [foldlM_option_cons] at h
    cases hs : step st x with
    | none => rw [hs] at h; exact Option.noConfusion h
    | some st1 =>
      rw [hs] at h
      exact ih st1 st2
        (fun st3 y st4 hy => hstep st3 y st4 (List.mem_cons_of_mem _ hy))
        (hstep st x st1 (List.mem_cons_self _ _) hP hs) h

theorem foldlM_option_append {σ α : Type} (step : σ → α → Option σ)
    (l1 l2 : List α) (st : σ) :
    List.foldlM step st (l1 ++ l2) =
      (List.foldlM step st l1).bind fun st1 => List.foldlM step st1 l2 := by
  rw [List.foldlM_append]
  rfl

/-! ## Lemmas: whole-pass invariants -/

theorem resolvePass_static {tbl : SymbolTable} {tblF : SymbolTable}
    {dsF : List Diagnostic} (h : resolvePass tbl = some (tblF, dsF)) :
    staticPart tblF = staticPart tbl := by
  unfold resolvePass at h
  have := foldlM_option_inv
    (fun st a => resolveReferenceComponentNode a.scope a st.1 st.2)
    (fun st => staticPart st.1 = staticPart tbl) (tableAddrs tbl)
    (tbl, []) (tblF, dsF)
    (fun st3 x st4 _ hP hs => by
      dsimp only at hP hs ⊢
      rw [staticPart_step hs]
      exact hP) rfl h
  exact this

theorem resolveLocallyOnly_static {tbl tblL : SymbolTable}
    (h : resolveLocallyOnly tbl = some tblL) :
    staticPart tblL = staticPart tbl := by
  unfold resolveLocallyOnly at h
  exact foldlM_option_inv
    (fun t a => resolveReferenceComponentNodeLocal a t)
    (fun t => staticPart t = staticPart tbl) (rootAddrs tbl) tbl tblL
    (fun st3 x st4 _ hP hs => by
      dsimp only at hP hs ⊢
      rw [staticPart_localStep hs]
      exact hP) rfl h

theorem resolvePass_preserves_resolved {tbl tblF : SymbolTable}
    {dsF : List Diagnostic} (h : resolvePass tbl = some (tblF, dsF))
    (a : RefAddr) (c : ReferenceComponent) (hc : getComp tbl a = some c)
    (hr : c.resolved_symbol.isSome = true) : getComp tblF a = some c := by
  unfold resolvePass at h
  exact foldlM_option_inv
    (fun st a2 => resolveReferenceComponentNode a2.scope a2 st.1 st.2)
    (fun st => getComp st.1 a = some c) (tableAddrs tbl)
    (tbl, []) (tblF, dsF)
    (fun st3 x st4 _ hP hs => by
      dsimp only at hP hs ⊢
      by_cases hx : a = x
      · subst hx
        rw [resolveReferenceComponentNode_skip hP hr] at hs
        cases Option.some.inj hs
        exact hP
      · rw [getComp_step_ne hs a (fun hh => hx hh)]
        exact hP) hc h

theorem resolvePass_preserves_missing {tbl tblF : SymbolTable}
    {dsF : List Diagnostic} (h : resolvePass tbl = some (tblF, dsF))
    (a : RefAddr) (hc : getComp tbl a = none) : getComp tblF a = none := by
  unfold resolvePass at h
  exact foldlM_option_inv
    (fun st a2 => resolveReferenceComponentNode a2.scope a2 st.1 st.2)
    (fun st => getComp st.1 a = none) (tableAddrs tbl)
    (tbl, []) (tblF, dsF)
    (fun st3 x st4 _ hP hs => by
      dsimp only at hP hs ⊢
      by_cases hx : a = x
      · subst hx
        rw [resolveReferenceComponentNode_missing hP] at hs
        cases Option.some.inj hs
        exact hP
      · rw [getComp_step_ne hs a (fun hh => hx hh)]
        exact hP) hc h

theorem resolveLocallyOnly_preserves_missing {tbl tblL : SymbolTable}
    (h : resolveLocallyOnly tbl = some tblL)
    (a : RefAddr) (hc : getComp tbl a = none) : getComp tblL a = none := by
  unfold resolveLocallyOnly at h
  exact foldlM_option_inv
    (fun t a2 => resolveReferenceComponentNodeLocal a2 t)
    (fun t => getComp t a = none) (rootAddrs tbl) tbl tblL
    (fun st3 x st4 _ hP hs => by
      dsimp only at hP hs ⊢
      by_cases hx : a = x
      · subst hx
        rw [resolveReferenceComponentNodeLocal_missing hP] at hs
        cases Option.some.inj hs
        exact hP
      · rw [getComp_localStep_ne hs a (fun hh => hx hh)]
        exact hP) hc h

/-! ## Lemmas: address membership -/

theorem treeFind_some_mem {t : RefTree} {q : NodePath} {c : ReferenceComponent}
    (h : treeFind t q = some c) : q ∈ t.map Prod.fst := by
  induction t with
  | nil => exact Option.noConfusion h
  | cons pc rest ih =>
    by_cases hq : pc.1 = q
    · simp [hq]
    · rw [treeFind, if_neg hq] at h
      simp [ih h]

theorem mem_treeAddrs {p : ScopePath} {i : Nat} {t : RefTree} {q : NodePath}
    (h : q ∈ t.map Prod.fst) : RefAddr.mk p i q ∈ treeAddrs p i t := by
  unfold treeAddrs
  obtain ⟨pc, hpc, rfl⟩ := List.mem_map.mp h
  exact List.mem_map.mpr ⟨pc, hpc, rfl⟩

theorem refsAt_treeAddrs_sub (p : ScopePath) :
    ∀ (ts : List RefTree) (j i : Nat) (t : RefTree), refsAt ts i = some t →
      ∀ x, x ∈ treeAddrs p (j + i) t → x ∈ refsAddrs p j ts := by
  intro ts
  induction ts with
  | nil => intro j i t h; exact Option.noConfusion h
  | cons t1 rest ih =>
    intro j i t h x hx
    cases i with
    | zero =>
      cases Option.some.inj h
      exact List.mem_append_left _ hx
    | succ i2 =>
      refine List.mem_append_right _ (ih (j + 1) i2 t h x ?_)
      have : j + (i2 + 1) = j + 1 + i2 := by omega
      rw [this] at hx
      exact hx

theorem getComp_some_mem_tableAddrs {tbl : SymbolTable} {a : RefAddr}
    {c : ReferenceComponent} (h : getComp tbl a = some c) :
    a ∈ tableAddrs tbl := by
  induction tbl with
  | nil => exact Option.noConfusion h
  | cons e rest ih =>
    unfold getComp at h
    by_cases he : e.path = a.scope
    · rw [findScope, if_pos he] at h
      have h3 : (match refsAt e.refs a.refIndex with
          | none => none
          | some t => treeFind t a.node) = some c := h
      clear h
      cases ht : refsAt e.refs a.refIndex with
      | none => rw [ht] at h3; exact Option.noConfusion h3
      | some t =>
        rw [ht] at h3
        have h : treeFind t a.node = some c := h3
        have hmem : a.node ∈ t.map Prod.fst := treeFind_some_mem h
        have : RefAddr.mk e.path a.refIndex a.node ∈ treeAddrs e.path a.refIndex t := by
          rw [he]
          exact mem_treeAddrs hmem
        have h2 : RefAddr.mk e.path a.refIndex a.node ∈ refsAddrs e.path 0 e.refs := by
          refine refsAt_treeAddrs_sub e.path e.refs 0 a.refIndex t ht _ ?_
          have h0 : 0 + a.refIndex = a.refIndex := by omega
          rw [h0]
          exact this
        rw [tableAddrs]
        refine List.mem_append_left _ ?_
        have ha : a = RefAddr.mk e.path a.refIndex a.node := by
          cases a
          simp_all
        rw [ha]
        exact h2
    · rw [findScope, if_neg he] at h
      have : getComp rest a = some c := by
        unfold getComp
        exact h
      rw [tableAddrs]
      exact List.mem_append_right _ (ih this)

/-! ## Lemmas: the final value of a root component under each pass -/

theorem rootStepValue_congr {t1 t2 : SymbolTable} (a : RefAddr)
    (hst : staticPart t1 = staticPart t2) (hg : getComp t1 a = getComp t2 a) :
    rootStepValue t1 a = rootStepValue t2 a := by
  unfold rootStepValue
  rw [hg]
  cases getComp t2 a with
  | none => rfl
  | some c =>
    simp only
    by_cases hr : c.resolved_symbol.isSome = true
    · rw [if_pos hr, if_pos hr]
    · rw [if_neg hr, if_neg hr]
      cases c.ref_type with
      | kUnqualified =>
        rw [lookupSymbolUpwards_congr c.identifier a.scope t1 t2 hst]
      | kImmediate => rw [findMember_congr a.scope c.identifier t1 t2 hst]
      | kDirectMember => rfl
      | kMemberOfTypeOfParent => rfl

theorem localRootStepValue_congr {t1 t2 : SymbolTable} (a : RefAddr)
    (hst : staticPart t1 = staticPart t2) (hg : getComp t1 a = getComp t2 a) :
    localRootStepValue t1 a = localRootStepValue t2 a := by
  unfold localRootStepValue
  rw [hg]
  cases getComp t2 a with
  | none => rfl
  | some c =>
    simp only
    by_cases hr : c.resolved_symbol.isSome = true
    · rw [if_pos hr, if_pos hr]
    · rw [if_neg hr, if_neg hr]
      by_cases ht : c.ref_type ≠ ReferenceType.kUnqualified
      · rw [if_pos ht, if_pos ht]
      · rw [if_neg ht, if_neg ht,
          findMember_congr a.scope c.identifier t1 t2 hst]

theorem step_root_value {a : RefAddr} {tbl : SymbolTable}
    {ds : List Diagnostic} {st2 : SymbolTable × List Diagnostic}
    (hroot : a.node = [])
    (h : resolveReferenceComponentNode a.scope a tbl ds = some st2) :
    getComp st2.1 a = rootStepValue tbl a := by
  unfold resolveReferenceComponentNode at h
  unfold rootStepValue
  cases hg : getComp tbl a with
  | none =>
    simp only [hg] at h ⊢
    cases Option.some.inj h
    exact hg
  | some c =>
    simp only [hg] at h ⊢
    by_cases hr : c.resolved_symbol.isSome = true
    · rw [if_pos hr] at h
      rw [if_pos hr]
      cases Option.some.inj h
      exact hg
    · rw [if_neg hr] at h
      rw [if_neg hr]
      cases hrt : c.ref_type with
      | kUnqualified =>
        rw [hrt] at h
        rw [if_pos hroot] at h
        cases Option.some.inj h
        unfold resolveUnqualifiedName
        cases hl : lookupSymbolUpwards tbl a.scope c.identifier with
        | none => simp only [hl]; exact hg
        | some pt =>
          obtain ⟨p, ty⟩ := pt
          simp only [hl]
          by_cases hm : matchesMetatype c.metatype ty = true
          · rw [if_pos hm, if_pos hm]
            rw [getComp_updateTableAt_eq, hg]
            rfl
          · rw [if_neg hm, if_neg hm]
            exact hg
      | kImmediate =>
        rw [hrt] at h
        cases Option.some.inj h
        unfold resolveDirectMember
        cases hl : findMember tbl a.scope c.identifier with
        | none => simp only [hl]; exact hg
        | some pt =>
          obtain ⟨p, ty⟩ := pt
          simp only [hl]
          by_cases hm : matchesMetatype c.metatype ty = true
          · rw [if_pos hm, if_pos hm]
            rw [getComp_updateTableAt_eq, hg]
            rfl
          · rw [if_neg hm, if_neg hm]
            exact hg
      | kDirectMember =>
        simp only [hrt] at h
        rw [if_pos hroot] at h
        exact Option.noConfusion h
      | kMemberOfTypeOfParent =>
        simp only [hrt] at h
        rw [if_pos hroot] at h
        exact Option.noConfusion h

theorem localStep_root_value {a : RefAddr} {tbl tbl2 : SymbolTable}
    (h : resolveReferenceComponentNodeLocal a tbl = some tbl2) :
    getComp tbl2 a = localRootStepValue tbl a := by
  unfold resolveReferenceComponentNodeLocal at h
  unfold localRootStepValue
  cases hg : getComp tbl a with
  | none =>
    simp only [hg] at h ⊢
    cases Option.some.inj h
    exact hg
  | some c =>
    simp only [hg] at h ⊢
    by_cases hr : c.resolved_symbol.isSome = true
    · rw [if_pos hr] at h
      rw [if_pos hr]
      cases Option.some.inj h
      exact hg
    · rw [if_neg hr] at h
      rw [if_neg hr]
      by_cases ht : c.ref_type ≠ ReferenceType.kUnqualified
      · rw [if_pos ht] at h
        exact Option.noConfusion h
      · rw [if_neg ht] at h
        rw [if_neg ht]
        cases hl : findMember tbl a.scope c.identifier with
        | none =>
          rw [hl] at h
          cases Option.some.inj h
          exact hg
        | some pt =>
          obtain ⟨p, ty⟩ := pt
          rw [hl] at h
          cases Option.some.inj h
          rw [getComp_updateTableAt_eq, hg]
          rfl

theorem resolvePass_root_value {tbl tblF : SymbolTable} {dsF : List Diagnostic}
    (h : resolvePass tbl = some (tblF, dsF)) (hnd : (tableAddrs tbl).Nodup)
    {a : RefAddr} (ha : a ∈ tableAddrs tbl) (hroot : a.node = []) :
    getComp tblF a = rootStepValue tbl a := by
  unfold resolvePass at h
  obtain ⟨l1, l2, hsplit⟩ := List.append_of_mem ha
  rw [hsplit] at h hnd
  have hna1 : a ∉ l1 := by
    intro hmem
    exact (List.nodup_append.mp hnd).2.2 hmem (List.mem_cons_self _ _)
  have hna2 : a ∉ l2 :=
    (List.nodup_cons.mp ((List.nodup_append.mp hnd).2.1)).1
  rw [foldlM_option_append] at h
  cases h1 : List.foldlM
      (fun st a2 => resolveReferenceComponentNode a2.scope a2 st.1 st.2)
      (tbl, ([] : List Diagnostic)) l1 with
  | none => rw [h1] at h; exact Option.noConfusion h
  | some st1 =>
    rw [h1] at h
    have h2 : List.foldlM
        (fun st a2 => resolveReferenceComponentNode a2.scope a2 st.1 st.2)
        st1 (a :: l2) = some (tblF, dsF) := h
    rw [foldlM_option_cons] at h2
    have hP1 : getComp st1.1 a = getComp tbl a ∧
        staticPart st1.1 = staticPart tbl := by
      refine foldlM_option_inv _
        (fun st => getComp st.1 a = getComp tbl a ∧
          staticPart st.1 = staticPart tbl) l1 (tbl, []) st1 ?_ ⟨rfl, rfl⟩ h1
      intro st3 x st4 hx hP hs
      try dsimp only at hs
      have hne : a ≠ x := fun he => hna1 (he ▸ hx)
      exact ⟨by rw [getComp_step_ne hs a hne]; exact hP.1,
        by rw [staticPart_step hs]; exact hP.2⟩
    cases hA : resolveReferenceComponentNode a.scope a st1.1 st1.2 with
    | none =>
      rw [hA] at h2
      exact Option.noConfusion h2
    | some stA =>
      rw [hA] at h2
      have h3 : List.foldlM
          (fun st a2 => resolveReferenceComponentNode a2.scope a2 st.1 st.2)
          stA l2 = some (tblF, dsF) := h2
      have hval : getComp stA.1 a = rootStepValue tbl a := by
        rw [step_root_value hroot hA]
        exact rootStepValue_congr a hP1.2 hP1.1
      have hfinal := foldlM_option_inv _
        (fun st => getComp st.1 a = rootStepValue tbl a) l2 stA (tblF, dsF)
        (fun st3 x st4 hx hP hs => by
          have hne : a ≠ x := fun he => hna2 (he ▸ hx)
          show getComp st4.1 a = rootStepValue tbl a
          rw [getComp_step_ne hs a hne]
          exact hP) hval h3
      exact hfinal

theorem resolveLocallyOnly_root_value {tbl tblL : SymbolTable}
    (h : resolveLocallyOnly tbl = some tblL) (hnd : (rootAddrs tbl).Nodup)
    {a : RefAddr} (ha : a ∈ rootAddrs tbl) :
    getComp tblL a = localRootStepValue tbl a := by
  unfold resolveLocallyOnly at h
  obtain ⟨l1, l2, hsplit⟩ := List.append_of_mem ha
  rw [hsplit] at h hnd
  have hna1 : a ∉ l1 := by
    intro hmem
    exact (List.nodup_append.mp hnd).2.2 hmem (List.mem_cons_self _ _)
  have hna2 : a ∉ l2 :=
    (List.nodup_cons.mp ((List.nodup_append.mp hnd).2.1)).1
  rw [foldlM_option_append] at h
  cases h1 : List.foldlM
      (fun t a2 => resolveReferenceComponentNodeLocal a2 t) tbl l1 with
  | none => rw [h1] at h; exact Option.noConfusion h
  | some st1 =>
    rw [h1] at h
    have h2 : List.foldlM
        (fun t a2 => resolveReferenceComponentNodeLocal a2 t)
        st1 (a :: l2) = some tblL := h
    rw [foldlM_option_cons] at h2
    have hP1 : getComp st1 a = getComp tbl a ∧
        staticPart st1 = staticPart tbl := by
      refine foldlM_option_inv _
        (fun t => getComp t a = getComp tbl a ∧
          staticPart t = staticPart tbl) l1 tbl st1 ?_ ⟨rfl, rfl⟩ h1
      intro st3 x st4 hx hP hs
      try dsimp only at hs
      have hne : a ≠ x := fun he => hna1 (he ▸ hx)
      exact ⟨by rw [getComp_localStep_ne hs a hne]; exact hP.1,
        by rw [staticPart_localStep hs]; exact hP.2⟩
    cases hA : resolveReferenceComponentNodeLocal a st1 with
    | none =>
      rw [hA] at h2
      exact Option.noConfusion h2
    | some stA =>
      rw [hA] at h2
      have h3 : List.foldlM
          (fun t a2 => resolveReferenceComponentNodeLocal a2 t)
          stA l2 = some tblL := h2
      have hval : getComp stA a = localRootStepValue tbl a := by
        rw [localStep_root_value hA]
        exact localRootStepValue_congr a hP1.2 hP1.1
      exact foldlM_option_inv _
        (fun t => getComp t a = localRootStepValue tbl a) l2 stA tblL
        (fun st3 x st4 hx hP hs => by
          have hne : a ≠ x := fun he => hna2 (he ▸ hx)
          show getComp st4 a = localRootStepValue tbl a
          rw [getComp_localStep_ne hs a hne]
          exact hP) hval h3

theorem rootRefsAddrs_node_nil (p : ScopePath) :
    ∀ (ts : List RefTree) (i : Nat) (a : RefAddr),
      a ∈ rootRefsAddrs p i ts → a.node = [] := by
  intro ts
  induction ts with
  | nil => intro i a ha; simp [rootRefsAddrs] at ha
  | cons t rest ih =>
    intro i a ha
    rw [rootRefsAddrs] at ha
    rcases List.mem_cons.mp ha with h | h
    · rw [h]
    · exact ih (i + 1) a h

theorem rootAddrs_node_nil :
    ∀ (tbl : SymbolTable) (a : RefAddr), a ∈ rootAddrs tbl → a.node = [] := by
  intro tbl
  induction tbl with
  | nil => intro a ha; simp [rootAddrs] at ha
  | cons e rest ih =>
    intro a ha
    rw [rootAddrs] at ha
    rcases List.mem_append.mp ha with h | h
    · exact rootRefsAddrs_node_nil e.path e.refs 0 a h
    · exact ih a h

theorem unresolvedRootsUnqualified_at {tbl : SymbolTable} {a : RefAddr}
    {c : ReferenceComponent} (hwf : unresolvedRootsUnqualified tbl = true)
    (ha : a ∈ rootAddrs tbl) (hg : getComp tbl a = some c) :
    c.resolved_symbol.isSome = true ∨
      c.ref_type = ReferenceType.kUnqualified := by
  have h := List.all_eq_true.mp hwf a ha
  simp only [hg] at h
  rcases Bool.or_eq_true_iff.mp h with h2 | h2
  · exact Or.inl h2
  · exact Or.inr (by simpa using h2)

theorem localMatchesRespectMetatype_at {tbl : SymbolTable} {a : RefAddr}
    {c : ReferenceComponent} (hmt : localMatchesRespectMetatype tbl = true)
    (ha : a ∈ rootAddrs tbl) (hg : getComp tbl a = some c)
    (hu : c.resolved_symbol.isSome = false) :
    ∀ pt, findMember tbl a.scope c.identifier = some pt →
      matchesMetatype c.metatype pt.2 = true := by
  intro pt hpt
  have h := List.all_eq_true.mp hmt a ha
  simp only [hg, hpt] at h
  rcases Bool.or_eq_true_iff.mp h with h2 | h2
  · rw [hu] at h2; exact Bool.noConfusion h2
  · exact h2

/-- Composing the two root-step outcomes: under the well-formedness and
metatype provisos, running the local root step first and then the full
root step lands on the same component value as the full root step alone. -/
theorem rootStep_after_localStep {tbl tblL : SymbolTable} {a : RefAddr}
    {c : ReferenceComponent}
    (hst : staticPart tblL = staticPart tbl)
    (hg : getComp tbl a = some c)
    (hgL : getComp tblL a = localRootStepValue tbl a)
    (hwfa : c.resolved_symbol.isSome = true ∨
      c.ref_type = ReferenceType.kUnqualified)
    (hmta : c.resolved_symbol.isSome = false →
      ∀ pt, findMember tbl a.scope c.identifier = some pt →
        matchesMetatype c.metatype pt.2 = true) :
    rootStepValue tblL a = rootStepValue tbl a := by
  by_cases hr : c.resolved_symbol.isSome = true
  · -- already resolved: the local pass keeps the component, both sides skip
    have hL : localRootStepValue tbl a = some c := by
      unfold localRootStepValue
      simp only [hg]
      rw [if_pos hr]
    rw [hL] at hgL
    have h1 : rootStepValue tblL a = some c := by
      unfold rootStepValue
      simp only [hgL]
      rw [if_pos hr]
    have h2 : rootStepValue tbl a = some c := by
      unfold rootStepValue
      simp only [hg]
      rw [if_pos hr]
    rw [h1, h2]
  · have hrt : c.ref_type = ReferenceType.kUnqualified := by
      rcases hwfa with h | h
      · exact absurd h hr
      · exact h
    have hrf : c.resolved_symbol.isSome = false := by
      cases h : c.resolved_symbol.isSome
      · rfl
      · exact absurd h hr
    have hnt : ¬(c.ref_type ≠ ReferenceType.kUnqualified) :=
      fun hh => hh hrt
    cases hfm : findMember tbl a.scope c.identifier with
    | some pt =>
      obtain ⟨p, ty⟩ := pt
      -- the local pass bound the root to the local match
      have hL : localRootStepValue tbl a = some (setResolvedComp c p) := by
        unfold localRootStepValue
        simp only [hg]
        rw [if_neg hr, if_neg hnt]
        simp only [hfm]
      rw [hL] at hgL
      have h1 : rootStepValue tblL a = some (setResolvedComp c p) := by
        unfold rootStepValue
        simp only [hgL]
        simp [setResolvedComp]
      have hup : lookupSymbolUpwards tbl a.scope c.identifier = some (p, ty) :=
        lookupSymbolUpwards_local_first hfm
      have hmm : matchesMetatype c.metatype ty = true :=
        hmta hrf (p, ty) hfm
      have h2 : rootStepValue tbl a = some (setResolvedComp c p) := by
        unfold rootStepValue
        simp only [hg]
        rw [if_neg hr]
        simp only [hrt, hup]
        rw [if_pos hmm]
      rw [h1, h2]
    | none =>
      -- the local pass left the root untouched
      have hL : localRootStepValue tbl a = some c := by
        unfold localRootStepValue
        simp only [hg]
        rw [if_neg hr, if_neg hnt]
        simp only [hfm]
      rw [hL] at hgL
      exact rootStepValue_congr a hst (by rw [hgL, hg])

/-! ## Claim theorems -/

/-- C1: in the full Resolve pass, the scope searched and the discipline are
dictated by the component's ref_type — an unqualified (root) component is
looked up by walking the parent chain from its anchoring scope with the
first match winning (`lookupSymbolUpwards`); an immediate component is
looked up in the anchoring scope only (`findMember`); a direct-member
component is looked up locally in the scope of its parent component's
resolved symbol; a member-of-type-of-parent component is looked up locally
in the scope that the user-defined type of the parent's resolved symbol's
declared type resolved to. -/
theorem resolve_dispatch_by_ref_type
    (tbl : SymbolTable) (ds : List Diagnostic) (a : RefAddr)
    (c : ReferenceComponent) (hc : getComp tbl a = some c)
    (hu : c.resolved_symbol = none) :
    (c.ref_type = ReferenceType.kUnqualified → a.node = [] →
      resolveReferenceComponentNode a.scope a tbl ds = some
        (match lookupSymbolUpwards tbl a.scope c.identifier with
         | none =>
           (tbl, ds ++ [Diagnostic.unresolvedUnqualified c.identifier a.scope])
         | some (p, ty) =>
           if matchesMetatype c.metatype ty then (updateTableAt tbl a p, ds)
           else
             (tbl,
              ds ++ [Diagnostic.metatypeMismatch c.identifier c.metatype ty]))) ∧
    (c.ref_type = ReferenceType.kImmediate →
      resolveReferenceComponentNode a.scope a tbl ds = some
        (match findMember tbl a.scope c.identifier with
         | none => (tbl, ds ++ [Diagnostic.noSuchMember c.identifier a.scope])
         | some (p, ty) =>
           if matchesMetatype c.metatype ty then (updateTableAt tbl a p, ds)
           else
             (tbl,
              ds ++ [Diagnostic.metatypeMismatch c.identifier c.metatype ty]))) ∧
    (c.ref_type = ReferenceType.kDirectMember → a.node ≠ [] →
      ∀ pc ps, getComp tbl (parentAddr a) = some pc →
        pc.resolved_symbol = some ps →
        resolveReferenceComponentNode a.scope a tbl ds = some
          (match findMember tbl ps c.identifier with
           | none => (tbl, ds ++ [Diagnostic.noSuchMember c.identifier ps])
           | some (p, ty) =>
             if matchesMetatype c.metatype ty then (updateTableAt tbl a p, ds)
             else
               (tbl,
                ds ++
                  [Diagnostic.metatypeMismatch c.identifier c.metatype ty]))) ∧
    (c.ref_type = ReferenceType.kMemberOfTypeOfParent → a.node ≠ [] →
      ∀ pc ps pe u uc ts, getComp tbl (parentAddr a) = some pc →
        pc.resolved_symbol = some ps → findScope tbl ps = some pe →
        pe.user_defined_type = some u → getComp tbl u = some uc →
        uc.resolved_symbol = some ts →
        resolveReferenceComponentNode a.scope a tbl ds = some
          (match findMember tbl ts c.identifier with
           | none => (tbl, ds ++ [Diagnostic.noSuchMember c.identifier ts])
           | some (p, ty) =>
             if matchesMetatype c.metatype ty then (updateTableAt tbl a p, ds)
             else
               (tbl,
                ds ++
                  [Diagnostic.metatypeMismatch c.identifier c.metatype ty]))) := by
  refine ⟨?_, ?_, ?_, ?_⟩
  · intro hrt hroot
    unfold resolveReferenceComponentNode
    simp only [hc, hu, hrt, Option.isSome_none, Bool.false_eq_true, if_false,
      if_pos hroot]
    rfl
  · intro hrt
    unfold resolveReferenceComponentNode
    simp only [hc, hu, hrt, Option.isSome_none, Bool.false_eq_true, if_false]
    rfl
  · intro hrt hroot pc ps hpc hps
    unfold resolveReferenceComponentNode
    simp only [hc, hu, hrt, Option.isSome_none, Bool.false_eq_true, if_false,
      if_neg hroot, hpc, hps]
    rfl
  · intro hrt hroot pc ps pe u uc ts hpc hps hpe hudt huc hts
    unfold resolveReferenceComponentNode
    simp only [hc, hu, hrt, Option.isSome_none, Bool.false_eq_true, if_false,
      if_neg hroot, hpc, hps, hpe, hudt, huc, hts]
    rfl

/-- C1 witness: the dispatch theorem applied to a concrete unqualified root
whose upward search fails. -/
theorem resolve_dispatch_by_ref_type_witness :
    resolveReferenceComponentNode [] (RefAddr.mk [] 0 []) exUnresolvable [] =
      some (exUnresolvable, [Diagnostic.unresolvedUnqualified "x" []]) := by
  have h := (resolve_dispatch_by_ref_type exUnresolvable []
    (RefAddr.mk [] 0 [])
    (ReferenceComponent.mk "x" ReferenceType.kUnqualified
      SymbolType.kUnspecified none) rfl rfl).1 rfl rfl
  rw [h]
  rfl

/-- C2 counterexample: resolving this table twice emits the unresolved
diagnostic twice — the diagnostic set is not produced "at most once" and
the second run is not a no-op. -/
theorem resolve_twice_duplicate_diagnostic :
    resolveTwice exUnresolvable =
      some (exUnresolvable,
        [Diagnostic.unresolvedUnqualified "x" [],
         Diagnostic.unresolvedUnqualified "x" []]) ∧
    resolvePass exUnresolvable =
      some (exUnresolvable, [Diagnostic.unresolvedUnqualified "x" []]) :=
  ⟨rfl, rfl⟩

/-- C2 (amended): running the full Resolve pass twice never changes or
removes a binding: every component resolved after the first run is skipped
by the second run and keeps its value unchanged.  (The second run is not a
no-op in general: components that stayed unresolved are re-attempted, so
their failure diagnostics can be emitted again.) -/
theorem resolve_rerun_preserves_bindings
    {tbl tbl1 tbl2 : SymbolTable} {ds1 ds2 : List Diagnostic}
    (_hfirst : resolvePass tbl = some (tbl1, ds1))
    (h2 : resolvePass tbl1 = some (tbl2, ds2))
    (a : RefAddr) (c : ReferenceComponent) (hc : getComp tbl1 a = some c)
    (hr : c.resolved_symbol.isSome = true) : getComp tbl2 a = some c :=
  resolvePass_preserves_resolved h2 a c hc hr

/-- C2 witness: a binding installed by the first run survives the second
run unchanged. -/
theorem resolve_rerun_preserves_bindings_witness :
    getComp exCallableBound (RefAddr.mk [] 0 []) =
      some (ReferenceComponent.mk "f" ReferenceType.kUnqualified
        SymbolType.kCallable (some ["f"])) :=
  @resolve_rerun_preserves_bindings exCallable exCallableBound
    exCallableBound [] [] rfl rfl
    (RefAddr.mk [] 0 [])
    (ReferenceComponent.mk "f" ReferenceType.kUnqualified
      SymbolType.kCallable (some ["f"])) rfl rfl

/-- C3 counterexample: the local-only pass binds the root `x` to the
parameter `x` without checking the expected callable metatype, so
local-then-full ends with `x` bound while full resolve alone ends with `x`
unbound (and a mismatch diagnostic): the final bindings differ. -/
theorem local_then_full_differs :
    localThenFull exMismatch = some (exMismatchLocal, []) ∧
    resolvePass exMismatch =
      some (exMismatch,
        [Diagnostic.metatypeMismatch "x" SymbolType.kCallable
          SymbolType.kParameter]) ∧
    getComp exMismatchLocal (RefAddr.mk [] 0 []) ≠
      getComp exMismatch (RefAddr.mk [] 0 []) :=
  ⟨rfl, rfl, by decide⟩

/-- C3 (amended): provided every unresolved root is an unqualified
reference (true of built tables) and every local match of an unresolved
root satisfies its metatype constraint, the local-only pass followed by
the full pass gives every root component the same final value as the full
pass alone.  (Without the metatype proviso the claim fails: the local pass
performs no metatype check — see the counterexample.) -/
theorem local_then_full_same_root_bindings
    {tbl tblL tblLF tblF : SymbolTable} {dsLF dsF : List Diagnostic}
    (hnd1 : (tableAddrs tbl).Nodup) (hnd2 : (rootAddrs tbl).Nodup)
    (hwf : unresolvedRootsUnqualified tbl = true)
    (hmt : localMatchesRespectMetatype tbl = true)
    (hL : resolveLocallyOnly tbl = some tblL)
    (hLF : resolvePass tblL = some (tblLF, dsLF))
    (hF : resolvePass tbl = some (tblF, dsF)) :
    ∀ a ∈ rootAddrs tbl, getComp tblLF a = getComp tblF a := by
  intro a ha
  cases hg : getComp tbl a with
  | none =>
    have hmL := resolveLocallyOnly_preserves_missing hL a hg
    rw [resolvePass_preserves_missing hLF a hmL,
      resolvePass_preserves_missing hF a hg]
  | some c =>
    have hroot : a.node = [] := rootAddrs_node_nil tbl a ha
    have hmem : a ∈ tableAddrs tbl := getComp_some_mem_tableAddrs hg
    have hstL : staticPart tblL = staticPart tbl := resolveLocallyOnly_static hL
    have hFv : getComp tblF a = rootStepValue tbl a :=
      resolvePass_root_value hF hnd1 hmem hroot
    have hLv : getComp tblL a = localRootStepValue tbl a :=
      resolveLocallyOnly_root_value hL hnd2 ha
    have hndL : (tableAddrs tblL).Nodup := by
      rw [tableAddrs_congr tblL tbl hstL]
      exact hnd1
    have hmemL : a ∈ tableAddrs tblL := by
      rw [tableAddrs_congr tblL tbl hstL]
      exact hmem
    have hLFv : getComp tblLF a = rootStepValue tblL a :=
      resolvePass_root_value hLF hndL hmemL hroot
    have hwfa := unresolvedRootsUnqualified_at hwf ha hg
    have hmta : c.resolved_symbol.isSome = false →
        ∀ pt, findMember tbl a.scope c.identifier = some pt →
          matchesMetatype c.metatype pt.2 = true :=
      fun hrf => localMatchesRespectMetatype_at hmt ha hg hrf
    rw [hLFv, hFv, rootStep_after_localStep hstL hg hLv hwfa hmta]

/-- C3 witness: the amended theorem applied to a concrete table where the
provisos hold (one unqualified root expecting a callable, resolved to the
function `f`): both orders agree on the root's final value. -/
theorem local_then_full_same_root_bindings_witness :
    getComp exCallableBound (RefAddr.mk [] 0 []) =
      getComp exCallableBound (RefAddr.mk [] 0 []) :=
  @local_then_full_same_root_bindings exCallable exCallableBound
    exCallableBound exCallableBound [] []
    (by decide) (by decide) rfl rfl rfl rfl rfl
    (RefAddr.mk [] 0 []) (by decide)

/-- C4 counterexample: the reference `f` expects the callable wildcard and
the found symbol `f` is a function — the metatypes differ — yet resolution
emits no diagnostic at all and installs the binding: the case is treated
as a successful match, not as a diagnosed mismatch. -/
theorem callable_found_function_no_diagnostic :
    resolvePass exCallable = some (exCallableBound, []) ∧
    SymbolType.kCallable ≠ SymbolType.kFunction ∧
    getComp exCallableBound (RefAddr.mk [] 0 []) =
      some (ReferenceComponent.mk "f" ReferenceType.kUnqualified
        SymbolType.kCallable (some ["f"])) :=
  ⟨rfl, by decide, rfl⟩

/-- C4 (amended): when `MatchesMetatype` rejects the found symbol's
metatype, a mismatch diagnostic is emitted and `resolved_symbol` is left
unset (the table is unchanged); when the expected metatype is the callable
wildcard and the found symbol is a function or task, the pair is accepted
as a match — the component is bound with no diagnostic.  This holds for
both the member lookup and the unqualified (upward) lookup. -/
theorem metatype_gate_amended (tbl : SymbolTable) (a : RefAddr)
    (c : ReferenceComponent) (ctx : ScopePath) (ds : List Diagnostic)
    (p : ScopePath) (ty : SymbolType) :
    (findMember tbl ctx c.identifier = some (p, ty) →
      (matchesMetatype c.metatype ty = false →
        resolveDirectMember tbl a c ctx ds =
          (tbl, ds ++ [Diagnostic.metatypeMismatch c.identifier c.metatype ty])) ∧
      (c.metatype = SymbolType.kCallable →
        ty = SymbolType.kFunction ∨ ty = SymbolType.kTask →
        resolveDirectMember tbl a c ctx ds = (updateTableAt tbl a p, ds))) ∧
    (lookupSymbolUpwards tbl ctx c.identifier = some (p, ty) →
      (matchesMetatype c.metatype ty = false →
        resolveUnqualifiedName tbl a c ctx ds =
          (tbl, ds ++ [Diagnostic.metatypeMismatch c.identifier c.metatype ty])) ∧
      (c.metatype = SymbolType.kCallable →
        ty = SymbolType.kFunction ∨ ty = SymbolType.kTask →
        resolveUnqualifiedName tbl a c ctx ds = (updateTableAt tbl a p, ds))) := by
  constructor
  · intro hfm
    constructor
    · intro hmm
      unfold resolveDirectMember
      simp only [hfm]
      rw [if_neg (by rw [hmm]; exact Bool.noConfusion)]
    · intro hcall hft
      unfold resolveDirectMember
      simp only [hfm]
      rw [if_pos (by rw [hcall]; rcases hft with h | h <;> rw [h] <;> rfl)]
  · intro hfm
    constructor
    · intro hmm
      unfold resolveUnqualifiedName
      simp only [hfm]
      rw [if_neg (by rw [hmm]; exact Bool.noConfusion)]
    · intro hcall hft
      unfold resolveUnqualifiedName
      simp only [hfm]
      rw [if_pos (by rw [hcall]; rcases hft with h | h <;> rw [h] <;> rfl)]

/-- C4 witness: a parameter found where a callable is expected — diagnostic
emitted, binding left unset (table unchanged). -/
theorem metatype_gate_amended_witness :
    resolveDirectMember exMismatch (RefAddr.mk [] 0 [])
      (ReferenceComponent.mk "x" ReferenceType.kUnqualified
        SymbolType.kCallable none) [] [] =
      (exMismatch, [Diagnostic.metatypeMismatch "x" SymbolType.kCallable
        SymbolType.kParameter]) :=
  ((metatype_gate_amended exMismatch (RefAddr.mk [] 0 [])
    (ReferenceComponent.mk "x" ReferenceType.kUnqualified
      SymbolType.kCallable none) [] [] ["x"] SymbolType.kParameter).1
    rfl).1 rfl

/-- C5 counterexample: an include directive encountered while no project is
attached is silently ignored — the expander returns without traversal but
records no diagnostic, contrary to the claim that the missing-project case
is recorded as a diagnostic. -/
theorem include_missing_project_silent :
    enterIncludeFile (none : Option (VerilogProject Unit))
      (some "\"foo.svh\"") = ([], none) := rfl

/-- C5 (amended): an include file that cannot be opened and a parse failure
of the included file are each recorded as exactly one diagnostic, and in
those cases — as well as in the missing-project case, which records
nothing — the expander returns without traversing any part of the included
file. -/
theorem include_failure_amended {τ : Type} (proj : VerilogProject τ)
    (f : String) :
    (enterIncludeFile (none : Option (VerilogProject τ)) (some f) =
      ([], none)) ∧
    (∀ st, proj.openIncludedFile (stripOuterQuotes f) = Except.error st →
      enterIncludeFile (some proj) (some f) = ([st], none)) ∧
    (∀ file pst,
      proj.openIncludedFile (stripOuterQuotes f) = Except.ok (some file) →
      file.parse_status = some pst →
      enterIncludeFile (some proj) (some f) = ([pst], none)) := by
  refine ⟨rfl, ?_, ?_⟩
  · intro st hopen
    unfold enterIncludeFile
    simp only [hopen]
  · intro file pst hopen hparse
    unfold enterIncludeFile
    simp only [hopen, hparse]

/-- C5 witness: a project whose open always fails yields exactly the open
diagnostic and no traversal. -/
theorem include_failure_amended_witness :
    enterIncludeFile
      (some (VerilogProject.mk
        (fun _ => Except.error (Diagnostic.includeFileError "file not found")) :
          VerilogProject Unit))
      (some "\"pkg.svh\"") =
      ([Diagnostic.includeFileError "file not found"], none) :=
  (include_failure_amended
    (VerilogProject.mk
      (fun _ => Except.error (Diagnostic.includeFileError "file not found")) :
        VerilogProject Unit)
    "\"pkg.svh\"").2.1 _ rfl

/-- C6: for an out-of-line function or task definition whose outer (class)
component resolved, an absent inner identifier is injected into the class
scope with the definition's metatype, exactly one non-fatal no-such-member
diagnostic is recorded, and traversal continues in the injected scope; an
inner identifier present with a different metatype yields one
redefinition-conflict diagnostic, no table change, and the definition
subtree is skipped. -/
theorem outofline_inject_or_conflict (tbl : SymbolTable)
    (cur outerPath : ScopePath) (capture : RefTree) (ty oty : SymbolType)
    (base innerRef : ReferenceComponent)
    (hcc : rootChildCount capture = 1)
    (hbase : treeFind capture [] = some base)
    (hbt : base.ref_type = ReferenceType.kUnqualified ∨
      base.ref_type = ReferenceType.kImmediate)
    (houter : findMember tbl cur base.identifier = some (outerPath, oty))
    (hmt : matchesMetatype base.metatype oty = true)
    (hinner : treeFind capture [0] = some innerRef) :
    (findMember tbl outerPath innerRef.identifier = none →
      descendThroughOutOfLineDefinition tbl cur capture ty =
        some
          (tbl ++ [ScopeEntry.mk (outerPath ++ [innerRef.identifier]) ty none []],
           [Diagnostic.noSuchMember innerRef.identifier outerPath],
           some (outerPath ++ [innerRef.identifier]))) ∧
    (∀ innerPath origTy,
      findMember tbl outerPath innerRef.identifier = some (innerPath, origTy) →
      origTy ≠ ty →
      descendThroughOutOfLineDefinition tbl cur capture ty =
        some
          (tbl, [Diagnostic.redefinedOutOfLine innerRef.identifier origTy ty],
           none)) := by
  constructor
  · intro habsent
    unfold descendThroughOutOfLineDefinition lookupOrInjectOutOfLineDefinition
    rw [if_neg (by rw [hcc]; exact fun hh => hh rfl)]
    simp only [hbase]
    rw [if_neg (not_not_intro hbt)]
    simp only [houter]
    rw [if_neg (by rw [hmt]; exact Bool.noConfusion)]
    simp only [hinner, habsent]
  · intro innerPath origTy hpresent hne
    unfold descendThroughOutOfLineDefinition lookupOrInjectOutOfLineDefinition
    rw [if_neg (by rw [hcc]; exact fun hh => hh rfl)]
    simp only [hbase]
    rw [if_neg (not_not_intro hbt)]
    simp only [houter]
    rw [if_neg (by rw [hmt]; exact Bool.noConfusion)]
    simp only [hinner, hpresent]
    rw [if_pos hne]

/-- C6 witness: the empty class `C` with the out-of-line definition of
`C::g` — `g` is injected as a function with exactly one no-such-member
diagnostic, and the builder continues inside `$root::C::g`. -/
theorem outofline_inject_or_conflict_witness :
    descendThroughOutOfLineDefinition exInject [] captureCg
      SymbolType.kFunction =
      some (exInject ++ [ScopeEntry.mk ["C", "g"] SymbolType.kFunction none []],
        [Diagnostic.noSuchMember "g" ["C"]], some ["C", "g"]) :=
  (outofline_inject_or_conflict exInject [] ["C"] captureCg
    SymbolType.kFunction SymbolType.kClass
    (ReferenceComponent.mk "C" ReferenceType.kImmediate SymbolType.kClass none)
    (ReferenceComponent.mk "g" ReferenceType.kDirectMember
      SymbolType.kFunction none)
    rfl rfl (Or.inr rfl) rfl rfl rfl).1 rfl

/-- C7: a direct-member or member-of-type-of-parent component whose parent
component is unresolved is left unresolved silently (the table and the
diagnostics are unchanged); a member-of-type-of-parent component whose
parent resolved to a symbol with a primitive declared type (null
user-defined-type pointer) produces a type-has-no-members diagnostic and
stays unbound. -/
theorem unresolved_parent_silent_primitive_type_diagnosed
    (tbl : SymbolTable) (ds : List Diagnostic) (a : RefAddr)
    (c pc : ReferenceComponent) (hc : getComp tbl a = some c)
    (hu : c.resolved_symbol = none) (hn : a.node ≠ [])
    (hpc : getComp tbl (parentAddr a) = some pc) :
    ((c.ref_type = ReferenceType.kDirectMember ∨
      c.ref_type = ReferenceType.kMemberOfTypeOfParent) →
      pc.resolved_symbol = none →
      resolveReferenceComponentNode a.scope a tbl ds = some (tbl, ds)) ∧
    (∀ ps pe, c.ref_type = ReferenceType.kMemberOfTypeOfParent →
      pc.resolved_symbol = some ps → findScope tbl ps = some pe →
      pe.user_defined_type = none →
      resolveReferenceComponentNode a.scope a tbl ds =
        some (tbl, ds ++ [Diagnostic.typeHasNoMembers pc.identifier])) := by
  constructor
  · intro hrt hps
    unfold resolveReferenceComponentNode
    rcases hrt with h | h <;>
      simp only [hc, hu, h, Option.isSome_none, Bool.false_eq_true, if_false,
        if_neg hn, hpc, hps]
  · intro ps pe hrt hps hpe hudt
    unfold resolveReferenceComponentNode
    simp only [hc, hu, hrt, Option.isSome_none, Bool.false_eq_true, if_false,
      if_neg hn, hpc, hps, hpe, hudt]

/-- C7 witness: in the concrete `c.f` table, resolving the `.f` component
while `c` is still unresolved leaves everything unchanged and emits
nothing. -/
theorem unresolved_parent_silent_witness :
    resolveReferenceComponentNode [] (RefAddr.mk [] 1 [0]) exTypeMember [] =
      some (exTypeMember, []) :=
  (unresolved_parent_silent_primitive_type_diagnosed exTypeMember []
    (RefAddr.mk [] 1 [0])
    (ReferenceComponent.mk "f" ReferenceType.kMemberOfTypeOfParent
      SymbolType.kUnspecified none)
    (ReferenceComponent.mk "c" ReferenceType.kUnqualified
      SymbolType.kUnspecified none)
    rfl rfl (by decide) rfl).1 (Or.inr rfl) rfl

/-- C8: declaring a name that already exists in the scope leaves the table
unchanged (the original symbol stays in place, no second child is
created), emits exactly one already-defined diagnostic for this
re-declaration, and hands back the resident symbol. -/
theorem duplicate_declaration_one_diagnostic (tbl : SymbolTable)
    (cur : ScopePath) (name : String) (ty : SymbolType)
    (ds : List Diagnostic) (e : ScopeEntry)
    (hex : findScope tbl (cur ++ [name]) = some e) :
    emplaceElementInCurrentScope tbl cur name ty ds =
      (tbl, ds ++ [Diagnostic.alreadyExists name cur], cur ++ [name]) ∧
    findScope (emplaceElementInCurrentScope tbl cur name ty ds).1
      (cur ++ [name]) = some e := by
  have h : emplaceElementInCurrentScope tbl cur name ty ds =
      (tbl, ds ++ [Diagnostic.alreadyExists name cur], cur ++ [name]) := by
    unfold emplaceElementInCurrentScope
    simp only [hex]
  exact ⟨h, by rw [h]; exact hex⟩

/-- C8 witness: re-declaring `g` in `$root::C` (where a task `g` resides)
leaves the table unchanged and records one already-defined diagnostic. -/
theorem duplicate_declaration_one_diagnostic_witness :
    emplaceElementInCurrentScope exConflict ["C"] "g"
      SymbolType.kDataNetVariableInstance [] =
      (exConflict, [Diagnostic.alreadyExists "g" ["C"]], ["C", "g"]) :=
  (duplicate_declaration_one_diagnostic exConflict ["C"] "g"
    SymbolType.kDataNetVariableInstance []
    (ScopeEntry.mk ["C", "g"] SymbolType.kTask none []) rfl).1

/-- C9 counterexample: the captured tree of the three-component qualified
id `A::B::C` is a linear chain whose root has exactly one child, so the
`CHECK` passes and the out-of-line handling proceeds (no abort), treating
the second component `B` as the inner symbol — refuting the claim that
more than two components abort the process. -/
theorem threecomponent_chain_passes_check :
    rootChildCount chainThree = 1 ∧
    descendThroughOutOfLineDefinition exChainScopes [] chainThree
      SymbolType.kFunction = some (exChainScopes, [], some ["A", "B"]) :=
  ⟨rfl, rfl⟩

/-- C9 (amended): the `CHECK` in the out-of-line handling asserts that the
captured reference tree's root has exactly one child; whenever the root's
child count differs from one (no child, or siblings branched off the
root), the process aborts via the assertion with no diagnostic.  A linear
chain of more than two components still has exactly one root child and
passes the `CHECK`. -/
theorem outofline_check_root_single_child (tbl : SymbolTable)
    (cur : ScopePath) (capture : RefTree) (ty : SymbolType)
    (h : rootChildCount capture ≠ 1) :
    descendThroughOutOfLineDefinition tbl cur capture ty = none := by
  unfold descendThroughOutOfLineDefinition lookupOrInjectOutOfLineDefinition
  rw [if_pos h]

/-- C9 witness: a captured tree whose root has two children (a sibling
branch, as named parameters on the outer component would produce) aborts
the process. -/
theorem outofline_check_root_single_child_witness :
    descendThroughOutOfLineDefinition exChainScopes []
      [(([] : NodePath),
        ReferenceComponent.mk "A" ReferenceType.kImmediate
          SymbolType.kClass none),
       ([0],
        ReferenceComponent.mk "P" ReferenceType.kDirectMember
          SymbolType.kParameter none),
       ([1],
        ReferenceComponent.mk "B" ReferenceType.kDirectMember
          SymbolType.kFunction none)] SymbolType.kFunction = none :=
  outofline_check_root_single_child exChainScopes [] _ SymbolType.kFunction
    (by decide)

/-- C10: when the source file has no text structure or no concrete syntax
tree, `BuildSymbolTable` returns an empty diagnostics vector and leaves
the symbol table completely unchanged, whatever the builder walk would
do. -/
theorem build_no_tree_no_change {τ : Type}
    (walk : τ → SymbolTable → SymbolTable × List Diagnostic)
    (source : VerilogSourceFile τ) (tbl : SymbolTable)
    (h : source.text_structure = none ∨
      ∃ ts, source.text_structure = some ts ∧ ts.syntax_tree = none) :
    buildSymbolTable walk source tbl = (tbl, []) := by
  unfold buildSymbolTable
  rcases h with h | ⟨ts, h1, h2⟩
  · rw [h]
  · simp only [h1, h2]

/-- C10 witness: a parsed-but-treeless source leaves a nonempty table
untouched even though the walk would add a diagnostic. -/
theorem build_no_tree_no_change_witness :
    buildSymbolTable
      (fun (_ : Unit) t => (t, [Diagnostic.includeFileError "should not run"]))
      (VerilogSourceFile.mk none (some (TextStructure.mk none))) exInject =
      (exInject, []) :=
  build_no_tree_no_change _ _ _ (Or.inr ⟨TextStructure.mk none, rfl, rfl⟩)

end Verilog
